import Mathlib

/-
  Verification of stable-os/pkg-builder (src/main.rs) against its
  natural-language specification.

  The program is a package build orchestrator: it reads a TOML package
  descriptor, fetches sources into a build tree, runs an optional build
  script, partitions the produced artifacts into subpackage archives, and
  cleans up.  `src/main.rs` is one straight-line `main` plus
  `setup_build_environment`; every external effect (git, curl, tar, unzip,
  sh glob expansion, mv, filesystem calls) is a child process or an
  `std::fs` call whose outcome we model through an explicit environment
  `Env`, and the orchestrator's observable actions are recorded in an
  explicit state `St` (for the packaging pipeline) or an event trace
  (for the source-fetch loop).  A Rust `panic!`/`.expect` abort is
  modelled by `RunResult.panicMsg = some msg`: the state reached so far is
  kept (a panic leaves the filesystem as is) and no further step runs.
-/

namespace PkgBuilder

/-- Helper for `rustReplace`: replace every non-overlapping occurrence of
`pat` (left to right) in a character list, with an explicit fuel argument
(one unit per consumed character) so the recursion is structural. -/
def replaceAux (pat rep : List Char) : Nat → List Char → List Char
  | _, [] => []
  | 0, s => s
  | fuel+1, c :: rest =>
    if pat.isPrefixOf (c :: rest) ∧ pat ≠ [] then
      rep ++ replaceAux pat rep fuel (List.drop (pat.length - 1) rest)
    else
      c :: replaceAux pat rep fuel rest

/-- Model of Rust `str::replace(&self, pat, rep)` (used at main.rs:141,
`file.replace(&out_dir, "")`): every non-overlapping occurrence of `pat`
is replaced by `rep`, scanning left to right.  (For the empty pattern the
model is the identity; the program only ever passes the non-empty
`out_dir` path.) -/
def rustReplace (s pat rep : String) : String :=
  ⟨replaceAux pat.data rep.data s.data.length s.data⟩

/-- Model of Rust `str::ends_with` (used for source-URL suffix dispatch at
main.rs:250,294-297,334). -/
def ends_with (s suffix : String) : Bool :=
  suffix.data.isSuffixOf s.data

/-- Model of Rust `file.rsplitn(2, '/').last().unwrap()` at main.rs:144:
everything before the last `/` of the path, or the whole string when it
contains no `/`.  This is the directory part recreated (via
`fs::create_dir_all`) under the subpackage directory before each move. -/
def rsplitn2Last (s : String) : String :=
  if s.data.contains '/' then
    ⟨((s.data.reverse.dropWhile (fun c => c ≠ '/')).drop 1).reverse⟩
  else s

/-- The `[package]` table of the descriptor (struct `PkgFilePackage`,
main.rs:18-24). -/
structure PkgFilePackage where
  name : String
  version : String
  description : String
  license : String
deriving DecidableEq

/-- One `[[subpackage]]` entry (struct `PkgFileSubPackage`, main.rs:26-31):
a name, a description and a list of glob-style file selectors. -/
structure PkgFileSubPackage where
  name : String
  description : String
  files : List String
deriving DecidableEq

/-- One `[[source]]` entry (struct `PkgFileSource`, main.rs:33-40). -/
structure PkgFileSource where
  source : String
  git_ref : Option String
  git_commit : Option String
  destination : Option String
deriving DecidableEq

/-- The `[build]` table (struct `PkgFileBuild`, main.rs:42-45). -/
structure PkgFileBuild where
  script : String
deriving DecidableEq

/-- The whole parsed descriptor (struct `PkgFile`, main.rs:10-16). -/
structure PkgFile where
  package : PkgFilePackage
  subpackage : Option (List PkgFileSubPackage)
  source : Option (List PkgFileSource)
  build : Option PkgFileBuild
deriving DecidableEq

/-- Outcomes of the external world that `main.rs` consults: exit statuses
of the child processes it spawns and success of its `std::fs` calls.  The
program never retries and treats each outcome exactly once, so a plain
function per command suffices.  Statuses of the fetch-stage commands are
keyed by the source URL; `0` means success, matching
`ExitStatus::success()`. -/
structure Env where
  buildExit : Nat
  shStatus : String → Nat
  glob : String → String → Bool
  mvOk : Bool
  tarOk : String → Bool
  copyOk : String → Bool
  removeOk : String → Bool
  gitCloneStatus : String → Nat
  gitResetStatus : String → Nat
  curlStatus : String → Nat
  fetchTarStatus : String → Nat
  unzipStatus : String → Nat

/-- Observable actions of the source-fetch loop of
`setup_build_environment` (main.rs:241-372), in program order.
`deleteFile` is never emitted by the code; it is the action the spec's
"then delete the temporary download" would require, included so that its
absence is statable. -/
inductive FetchEvent where
  | gitClone (url dest : String) (branch : Option String)
  | gitReset (commit dest : String)
  | download (url tmp : String)
  | extractTar (tmp dest : String)
  | extractZip (tmp dest : String)
  | deleteFile (path : String)
  | logErr (msg : String)
deriving DecidableEq

/-- Destination of one source (main.rs:245-248): `build_dir` with the
optional `destination` appended directly (`format!("{}{}", ...)`, no
separator), defaulting to `build_dir` itself. -/
def sourceDest (build_dir : String) (src : PkgFileSource) : String :=
  match src.destination with
  | some d => build_dir ++ d
  | none => build_dir

/-- Events of the `.git` branch (main.rs:250-292): shallow clone with
optional `--branch git_ref`, failure logged; then, when `git_commit` is
set, `git reset --hard` in the destination, failure logged. -/
def fetchGit (env : Env) (dest : String) (src : PkgFileSource) : List FetchEvent :=
  if ends_with src.source ".git" then
    [FetchEvent.gitClone src.source dest src.git_ref]
    ++ (if env.gitCloneStatus src.source = 0 then []
        else [FetchEvent.logErr "Git clone failed"])
    ++ (match src.git_commit with
        | some c =>
          [FetchEvent.gitReset c dest]
          ++ (if env.gitResetStatus src.source = 0 then []
              else [FetchEvent.logErr "Git reset failed"])
        | none => [])
  else []

/-- Events of the tar-family branch (main.rs:294-332): `curl -L` the URL
to `dest ++ ".tmpdownload"`, failure logged; then `tar -xvf` that file
into `dest`, failure logged.  The temporary download is never removed. -/
def fetchTarball (env : Env) (dest : String) (src : PkgFileSource) : List FetchEvent :=
  if ends_with src.source ".tar.gz" || ends_with src.source ".tgz"
      || ends_with src.source ".tar.bz2" || ends_with src.source ".tar.xz" then
    [FetchEvent.download src.source (dest ++ ".tmpdownload")]
    ++ (if env.curlStatus src.source = 0 then []
        else [FetchEvent.logErr "Download failed"])
    ++ [FetchEvent.extractTar (dest ++ ".tmpdownload") dest]
    ++ (if env.fetchTarStatus src.source = 0 then []
        else [FetchEvent.logErr "Extraction failed"])
  else []

/-- Events of the `.zip` branch (main.rs:334-368): `curl -L` the URL to
`dest ++ ".tmpdownload"`, failure logged; then `unzip -o` that file into
`dest`, failure logged.  The temporary download is never removed. -/
def fetchZip (env : Env) (dest : String) (src : PkgFileSource) : List FetchEvent :=
  if ends_with src.source ".zip" then
    [FetchEvent.download src.source (dest ++ ".tmpdownload")]
    ++ (if env.curlStatus src.source = 0 then []
        else [FetchEvent.logErr "Download failed"])
    ++ [FetchEvent.extractZip (dest ++ ".tmpdownload") dest]
    ++ (if env.unzipStatus src.source = 0 then []
        else [FetchEvent.logErr "Extraction failed"])
  else []

/-- Events of one iteration of the source loop (main.rs:243-369): the
three suffix branches are three sequential `if`s in the source, none of
which aborts the loop. -/
def fetchSource (env : Env) (build_dir : String) (src : PkgFileSource) : List FetchEvent :=
  let dest := sourceDest build_dir src
  fetchGit env dest src ++ fetchTarball env dest src ++ fetchZip env dest src

/-- The whole source loop of `setup_build_environment`
(main.rs:241-372), over the ordered source list. -/
def fetchSources (env : Env) (build_dir : String) : List PkgFileSource → List FetchEvent
  | [] => []
  | s :: rest => fetchSource env build_dir s ++ fetchSources env build_dir rest

/-- Observable state of the packaging pipeline of `main`
(main.rs:47-211).  Paths of files are kept relative to the directory
containing them, with a leading `/` (as the program itself produces them
by stripping the `out_dir` prefix from an absolute glob match).

* `outFiles` — files currently present in `out_dir` (populated by the
  build script, shrunk by the subpackage moves, emptied by the final
  `mv` into the package directory);
* `archives` — tarballs created so far, as `(path, entries)`: the path
  given to `tar -czf` and the relative paths of the files inside;
* `copies` — successful `fs::copy` calls of a tarball to its final
  destination, as `(source, destination)`;
* `mainTree` — contents of `package_dir/<name>` once the final `mv` of
  `out_dir` has happened (`none` before; the directory is deleted again
  with `package_dir`, which `packageDirRemoved` records);
* `buildDirRemoved` / `packageDirRemoved` — whether the two
  `fs::remove_dir_all` cleanup calls have succeeded;
* `execs` — child processes spawned to run the build script, as
  `(program, args)`;
* `shCmds` — the exact command strings handed to `sh -c` for glob
  expansion;
* `dirsCreated` — the targets of the `fs::create_dir_all` calls issued
  by the per-file move loop (main.rs:144-146), i.e. the containing
  directories recreated under the subpackage directories;
* `errLog` — messages printed to stderr by the non-fatal failure
  branches. -/
structure St where
  outFiles : List String
  archives : List (String × List String)
  copies : List (String × String)
  mainTree : Option (List String)
  buildDirRemoved : Bool
  packageDirRemoved : Bool
  execs : List (String × List String)
  shCmds : List String
  dirsCreated : List String
  errLog : List String
deriving DecidableEq

/-- Result of running (a suffix of) the pipeline: the state reached, and
`some msg` when the program aborted there with `panic!`/`.expect msg`
(no later statement runs; the state is left as is). -/
structure RunResult where
  st : St
  panicMsg : Option String
deriving DecidableEq

/-- The initial pipeline state: `out_dir` holds whatever the build wrote
(`built`), nothing else has happened yet. -/
def initSt (built : List String) : St :=
  { outFiles := built, archives := [], copies := [], mainTree := none,
    buildDirRemoved := false, packageDirRemoved := false,
    execs := [], shCmds := [], dirsCreated := [], errLog := [] }

/-- The command line built at main.rs:69-71 for the build script: the
program spawned is `bash` with arguments `-c` and the script text
prefixed by `source /root/.bashrc` and a blank line
(`format!("source /root/.bashrc\n\n{}", build.script)`). -/
def buildInvocation (b : PkgFileBuild) : String × List String :=
  ("bash", ["-c", "source /root/.bashrc\n\n" ++ b.script])

/-- The command string handed to `sh -c` at main.rs:118-123 to expand one
file selector: `format!("shopt -s nullglob; shopt -s dotglob; echo {}{}",
out_dir, file_selector)`.  `nullglob` makes a selector matching nothing
expand to nothing, `dotglob` makes hidden files match; the pattern is the
`out_dir` path with the selector appended, so expansion happens against
the output tree (the working directory `build_dir` is irrelevant for
these absolute patterns). -/
def shExpandCmd (out_dir selector : String) : String :=
  "shopt -s nullglob; shopt -s dotglob; echo " ++ out_dir ++ selector

/-- One iteration of the per-file move loop (main.rs:139-154), acting on
the pair (pipeline state, files moved into this subpackage so far).
Given one glob match `out_dir ++ rel`:
* `file` is the match with every occurrence of `out_dir` removed
  (main.rs:141);
* `fs::create_dir_all(subpackage_dir ++ "/" ++ rsplitn2Last file)`
  (main.rs:144-146) recreates the containing directory before the `mv`
  and regardless of its outcome; the created path is recorded in
  `dirsCreated` (the call itself is modelled as succeeding — the program
  would abort otherwise, a path no claim takes);
* `mv (out_dir ++ file) (subpackage_dir ++ file)` (main.rs:149-153) —
  the exit status of `mv` is NOT checked by the program, so a failed move
  is silent; the move succeeds exactly when `mv` itself works
  (`env.mvOk`) and the source path exists, i.e. `file` names a file
  currently in `out_dir`. -/
def moveFile (env : Env) (out_dir subpackage_dir : String)
    (acc : St × List String) (rel : String) : St × List String :=
  if env.mvOk && acc.1.outFiles.contains (rustReplace (out_dir ++ rel) out_dir "") then
    ({ acc.1 with
        dirsCreated := acc.1.dirsCreated ++
          [subpackage_dir ++ "/" ++ rsplitn2Last (rustReplace (out_dir ++ rel) out_dir "")],
        outFiles := acc.1.outFiles.erase (rustReplace (out_dir ++ rel) out_dir "") },
     acc.2 ++ [rustReplace (out_dir ++ rel) out_dir ""])
  else
    ({ acc.1 with
        dirsCreated := acc.1.dirsCreated ++
          [subpackage_dir ++ "/" ++ rsplitn2Last (rustReplace (out_dir ++ rel) out_dir "")] },
     acc.2)

/-- One iteration of the selector loop (main.rs:115-155): run the `sh`
expansion command; on a non-zero status log and skip the selector
(main.rs:128-134); otherwise move every matched file.  The matches of the
shell glob are the files currently under `out_dir` whose absolute path
the pattern `out_dir ++ selector` matches (`env.glob`). -/
def processSelector (env : Env) (out_dir subpackage_dir : String)
    (acc : St × List String) (selector : String) : St × List String :=
  let st1 := { acc.1 with shCmds := acc.1.shCmds ++ [shExpandCmd out_dir selector] }
  if env.shStatus (out_dir ++ selector) ≠ 0 then
    ({ st1 with errLog := st1.errLog ++ ["Failed to expand file selector"] }, acc.2)
  else
    let matched := st1.outFiles.filter (fun rel => env.glob (out_dir ++ selector) (out_dir ++ rel))
    matched.foldl (moveFile env out_dir subpackage_dir) (st1, acc.2)

/-- Name of a subpackage tarball (main.rs:164): `tar -czf` writes it
directly to `output_path/<subpackage-name>.tar.gz`. -/
def tarballName (output_path : String) (sp : PkgFileSubPackage) : String :=
  output_path ++ "/" ++ sp.name ++ ".tar.gz"

/-- Destination of the subsequent `fs::copy` of a tarball
(main.rs:187): `format!("{}/{}", output_path, tarball_name)` — note the
argument is the full tarball path, which already starts with
`output_path`. -/
def tarballCopyDest (output_path tarball : String) : String :=
  output_path ++ "/" ++ tarball

/-- One iteration of the subpackage loop (main.rs:106-189):
* create `package_dir/<subpackage-name>` (modelled as succeeding);
* process every selector in order, moving the matched files there;
* copy the descriptor into the subpackage directory as `package.toml`
  (main.rs:160-161, modelled as succeeding — the directory was just
  created);
* `tar -czf <output_path>/<name>.tar.gz ./` in the subpackage directory
  (main.rs:164-171); the archive therefore holds the moved files plus
  the manifest; a failed `tar` is logged and the subpackage is skipped
  (main.rs:173-179);
* remove the subpackage directory (modelled as succeeding);
* `fs::copy` the tarball to `tarballCopyDest` (main.rs:187-188); a
  failure here is `.expect`, i.e. aborts the whole invocation. -/
def processSubpackage (env : Env) (out_dir package_dir output_path : String)
    (st : St) (sp : PkgFileSubPackage) : RunResult :=
  let subpackage_dir := package_dir ++ "/" ++ sp.name
  let acc := sp.files.foldl (processSelector env out_dir subpackage_dir) (st, [])
  let entries := "/package.toml" :: acc.2
  let tarball := tarballName output_path sp
  if !(env.tarOk tarball) then
    ⟨{ acc.1 with errLog := acc.1.errLog ++ ["Failed to create tarball"] }, none⟩
  else
    let st2 := { acc.1 with archives := acc.1.archives ++ [(tarball, entries)] }
    let dst := tarballCopyDest output_path tarball
    if env.copyOk dst then
      ⟨{ st2 with copies := st2.copies ++ [(tarball, dst)] }, none⟩
    else
      ⟨st2, some "Unable to copy tarball to output directory"⟩

/-- The subpackage loop (main.rs:105-190), in declaration order; an abort
inside one subpackage stops the loop (and the whole invocation). -/
def processSubpackages (env : Env) (out_dir package_dir output_path : String) :
    St → List PkgFileSubPackage → RunResult
  | st, [] => ⟨st, none⟩
  | st, sp :: rest =>
    let r := processSubpackage env out_dir package_dir output_path st sp
    match r.panicMsg with
    | none => processSubpackages env out_dir package_dir output_path r.st rest
    | some m => ⟨r.st, some m⟩

/-- The packaging part of `main` after the build script
(main.rs:100-211):
* `fs::create_dir_all(output_path)` (main.rs:103, modelled as
  succeeding);
* the subpackage loop, when `subpackage` is present;
* `mv out_dir package_dir/<package-name>` (main.rs:194-198) — exit
  status again unchecked; on success the remaining `outFiles` become the
  main tree (no archive is ever made of them);
* `fs::remove_dir_all(build_dir)` then `fs::remove_dir_all(package_dir)`
  (main.rs:201,205), each `.expect`, i.e. a removal failure aborts;
  removing `package_dir` also deletes the main tree just moved there. -/
def packagePhase (env : Env) (pkg : PkgFile)
    (build_dir out_dir package_dir output_path : String) (st : St) : RunResult :=
  let r := match pkg.subpackage with
    | some sps => processSubpackages env out_dir package_dir output_path st sps
    | none => ⟨st, none⟩
  match r.panicMsg with
  | some m => ⟨r.st, some m⟩
  | none =>
    let st1 := if env.mvOk then
        { r.st with mainTree := some r.st.outFiles, outFiles := [] }
      else r.st
    if env.removeOk build_dir then
      let st2 := { st1 with buildDirRemoved := true }
      if env.removeOk package_dir then
        ⟨{ st2 with packageDirRemoved := true }, none⟩
      else
        ⟨st2, some "Unable to remove package directory"⟩
    else
      ⟨st1, some "Unable to remove build directory"⟩

/-- The pipeline of `main` from the build-script step on
(main.rs:67-211).  `built` is the list of files the build script wrote
into `out_dir` (empty when there is no build script).  When a build
script is present it is spawned via `buildInvocation`; a non-zero exit
status (`env.buildExit`) logs and panics "Build script failed"
(main.rs:92-95) before any packaging step; absence of a build script
only prints a note (main.rs:97) and continues. -/
def mainRun (env : Env) (pkg : PkgFile)
    (build_dir out_dir package_dir output_path : String)
    (built : List String) : RunResult :=
  match pkg.build with
  | some b =>
    let st := { initSt built with execs := [buildInvocation b] }
    if env.buildExit ≠ 0 then
      ⟨{ st with errLog := st.errLog ++ ["Build script failed"] }, some "Build script failed"⟩
    else packagePhase env pkg build_dir out_dir package_dir output_path st
  | none => packagePhase env pkg build_dir out_dir package_dir output_path (initSt built)

/-- Discriminator: is this fetch event a deletion of a file? -/
def isDelete : FetchEvent → Bool
  | FetchEvent.deleteFile _ => true
  | _ => false

/-- Discriminator: is this fetch event an error-log message? -/
def isLogErr : FetchEvent → Bool
  | FetchEvent.logErr _ => true
  | _ => false

/-- Concrete environment in which every external command succeeds and no
glob pattern matches anything; used to evaluate the pipeline on concrete
descriptors. -/
def cenvOk : Env :=
  { buildExit := 0, shStatus := fun _ => 0, glob := fun _ _ => false,
    mvOk := true, tarOk := fun _ => true, copyOk := fun _ => true,
    removeOk := fun _ => true, gitCloneStatus := fun _ => 0,
    gitResetStatus := fun _ => 0, curlStatus := fun _ => 0,
    fetchTarStatus := fun _ => 0, unzipStatus := fun _ => 0 }

/-- Concrete all-succeeding environment whose shell glob `/o/*` matches
exactly the file `/o/a.txt` (so that, with `out_dir = "/o"`, two
subpackages using the selector `/*` overlap on `/a.txt`). -/
def cenvGlobA : Env :=
  { cenvOk with glob := fun p f => p == "/o/*" && f == "/o/a.txt" }

/-- Concrete descriptor with no sources, no build script and no
subpackages. -/
def cpkgNoSub : PkgFile :=
  { package := { name := "foo", version := "1.0", description := "d", license := "MIT" },
    subpackage := none, source := none, build := none }

/-- Concrete descriptor with two subpackages whose selector lists are
identical (`/*`), the overlap scenario of the partitioning invariant. -/
def cpkgTwoSub : PkgFile :=
  { package := { name := "bar", version := "1.0", description := "d", license := "MIT" },
    subpackage := some [ { name := "dev", description := "d", files := ["/*"] },
                         { name := "doc", description := "d", files := ["/*"] } ],
    source := none, build := none }

/-- Concrete descriptor with one subpackage with an empty selector
list. -/
def cpkgOneSub : PkgFile :=
  { package := { name := "baz", version := "1.0", description := "d", license := "MIT" },
    subpackage := some [ { name := "dev", description := "d", files := [] } ],
    source := none, build := none }

/-- Concrete descriptor with a build script and nothing else. -/
def cpkgBuild : PkgFile :=
  { package := { name := "qux", version := "1.0", description := "d", license := "MIT" },
    subpackage := none, source := none,
    build := some { script := "echo hi > $OUT/hi.txt" } }

/-- Concrete tarball source spec. -/
def csrcTarGz : PkgFileSource :=
  { source := "https://x/a.tar.gz", git_ref := none, git_commit := none,
    destination := none }

/-- Concrete environment in which the build script exits with status 1
and everything else succeeds. -/
def cenvBuildFail : Env :=
  { cenvOk with buildExit := 1 }

/-- Concrete environment in which every `curl` download exits with
status 7 and everything else succeeds. -/
def cenvCurlFail : Env :=
  { cenvOk with curlStatus := fun _ => 7 }

/-- Concrete environment in which every `fs::copy` fails (the destination
directory does not exist) and everything else succeeds. -/
def cenvCopyFail : Env :=
  { cenvOk with copyOk := fun _ => false }

/-- Concrete all-succeeding environment whose shell glob `/o/*` matches
exactly the file `/o/x/o/y.txt` — a path whose out_dir-relative part
`/x/o/y.txt` contains the out_dir path `/o` again internally, the input
on which the `str::replace` prefix-stripping of main.rs:141 mangles the
path. -/
def cenvGlobB : Env :=
  { cenvOk with glob := fun p f => p == "/o/*" && f == "/o/x/o/y.txt" }

/-- Concrete descriptor with three subpackages: `aux0` selecting
`/none*` (matching nothing), then `dev` and `doc` both selecting `/*` —
so the first-declared claimant of an overlapping match sits in the
middle of the declaration list. -/
def cpkgThreeSub : PkgFile :=
  { package := { name := "bar3", version := "1.0", description := "d", license := "MIT" },
    subpackage := some [ { name := "aux0", description := "d", files := ["/none*"] },
                         { name := "dev", description := "d", files := ["/*"] },
                         { name := "doc", description := "d", files := ["/*"] } ],
    source := none, build := none }

/-- The real actions (everything except error logging) of the `.git`
branch of the fetch loop: these do not depend on any command's
outcome. -/
def fetchGitActions (dest : String) (src : PkgFileSource) : List FetchEvent :=
  if ends_with src.source ".git" then
    FetchEvent.gitClone src.source dest src.git_ref ::
      (match src.git_commit with
       | some c => [FetchEvent.gitReset c dest]
       | none => [])
  else []

/-- The real actions of the tar-family branch of the fetch loop. -/
def fetchTarballActions (dest : String) (src : PkgFileSource) : List FetchEvent :=
  if ends_with src.source ".tar.gz" || ends_with src.source ".tgz"
      || ends_with src.source ".tar.bz2" || ends_with src.source ".tar.xz" then
    [FetchEvent.download src.source (dest ++ ".tmpdownload"),
     FetchEvent.extractTar (dest ++ ".tmpdownload") dest]
  else []

/-- The real actions of the `.zip` branch of the fetch loop. -/
def fetchZipActions (dest : String) (src : PkgFileSource) : List FetchEvent :=
  if ends_with src.source ".zip" then
    [FetchEvent.download src.source (dest ++ ".tmpdownload"),
     FetchEvent.extractZip (dest ++ ".tmpdownload") dest]
  else []

/-- The real actions performed for one source, independent of the
environment: what remains of `fetchSource` once error logging is
dropped. -/
def fetchSourceActions (build_dir : String) (src : PkgFileSource) : List FetchEvent :=
  fetchGitActions (sourceDest build_dir src) src
    ++ fetchTarballActions (sourceDest build_dir src) src
    ++ fetchZipActions (sourceDest build_dir src) src

/-- Fields of the pipeline state that the selector/move loop of one
subpackage can never touch (it only shrinks `outFiles` and appends to
`shCmds`/`errLog`). -/
def SelFrame (t s : St) : Prop :=
  t.archives = s.archives ∧ t.copies = s.copies ∧ t.mainTree = s.mainTree ∧
  t.buildDirRemoved = s.buildDirRemoved ∧ t.packageDirRemoved = s.packageDirRemoved ∧
  t.execs = s.execs

/-- Fields of the pipeline state that the whole subpackage loop can never
touch. -/
def SubFrame (t s : St) : Prop :=
  t.mainTree = s.mainTree ∧ t.buildDirRemoved = s.buildDirRemoved ∧
  t.packageDirRemoved = s.packageDirRemoved ∧ t.execs = s.execs

/- ————————————————————————————————————————————————————————————————
   Helper lemmas
   ———————————————————————————————————————————————————————————————— -/

/-- Folding a list preserves any invariant that each step preserves. -/
theorem foldlInv {α β : Type} (f : β → α → β) (Inv : β → Prop)
    (h : ∀ b a, Inv b → Inv (f b a)) (l : List α) :
    ∀ b, Inv b → Inv (l.foldl f b) := by
  induction l with
  | nil => intro b hb; exact hb
  | cons a l ih => intro b hb; exact ih (f b a) (h b a hb)

theorem SelFrame_refl (s : St) : SelFrame s s := by
  simp [SelFrame]

theorem SelFrame_trans {t s r : St} (h1 : SelFrame t s) (h2 : SelFrame s r) :
    SelFrame t r := by
  obtain ⟨a1, a2, a3, a4, a5, a6⟩ := h1
  obtain ⟨b1, b2, b3, b4, b5, b6⟩ := h2
  exact ⟨a1.trans b1, a2.trans b2, a3.trans b3, a4.trans b4, a5.trans b5, a6.trans b6⟩

theorem SubFrame_refl (s : St) : SubFrame s s := by
  simp [SubFrame]

theorem SubFrame_trans {t s r : St} (h1 : SubFrame t s) (h2 : SubFrame s r) :
    SubFrame t r := by
  obtain ⟨a1, a2, a3, a4⟩ := h1
  obtain ⟨b1, b2, b3, b4⟩ := h2
  exact ⟨a1.trans b1, a2.trans b2, a3.trans b3, a4.trans b4⟩

theorem moveFile_selFrame (env : Env) (od sd : String) (acc : St × List String)
    (rel : String) : SelFrame (moveFile env od sd acc rel).1 acc.1 := by
  unfold moveFile
  split
  · exact ⟨rfl, rfl, rfl, rfl, rfl, rfl⟩
  · exact SelFrame_refl _

theorem moveFile_shCmds (env : Env) (od sd : String) (acc : St × List String)
    (rel : String) : (moveFile env od sd acc rel).1.shCmds = acc.1.shCmds := by
  unfold moveFile
  split <;> rfl

theorem moveFile_subset (env : Env) (od sd : String) (acc : St × List String)
    (rel : String) : (moveFile env od sd acc rel).1.outFiles ⊆ acc.1.outFiles := by
  unfold moveFile
  split
  · exact List.erase_subset _ _
  · exact fun _ h => h

theorem moveFile_nodup (env : Env) (od sd : String) (acc : St × List String)
    (rel : String) (h : acc.1.outFiles.Nodup) :
    (moveFile env od sd acc rel).1.outFiles.Nodup := by
  unfold moveFile
  split
  · exact h.erase _
  · exact h

theorem moveFile_dirs (env : Env) (od sd : String) (acc : St × List String)
    (rel d : String) (h : d ∈ acc.1.dirsCreated) :
    d ∈ (moveFile env od sd acc rel).1.dirsCreated := by
  unfold moveFile
  split <;> exact List.mem_append.mpr (Or.inl h)

theorem moveFile_P (env : Env) (od sd : String) (acc : St × List String)
    (rel x d : String)
    (h : x ∈ acc.2 ∧ x ∉ acc.1.outFiles ∧ d ∈ acc.1.dirsCreated) :
    x ∈ (moveFile env od sd acc rel).2 ∧
      x ∉ (moveFile env od sd acc rel).1.outFiles ∧
      d ∈ (moveFile env od sd acc rel).1.dirsCreated := by
  refine ⟨?_, fun hm => h.2.1 (moveFile_subset env od sd acc rel hm),
    moveFile_dirs env od sd acc rel d h.2.2⟩
  unfold moveFile
  split
  · exact List.mem_append.mpr (Or.inl h.1)
  · exact h.1

theorem moveFile_Q (env : Env) (od sd : String) (acc : St × List String)
    (rel x : String) (h : x ∉ acc.1.outFiles ∧ x ∉ acc.2) :
    x ∉ (moveFile env od sd acc rel).1.outFiles ∧ x ∉ (moveFile env od sd acc rel).2 := by
  refine ⟨fun hm => h.1 (moveFile_subset env od sd acc rel hm), ?_⟩
  unfold moveFile
  split
  · next hcond =>
    intro hm
    rcases List.mem_append.mp hm with hm | hm
    · exact h.2 hm
    · have hfile : rustReplace (od ++ rel) od "" ∈ acc.1.outFiles := by
        have := (Bool.and_eq_true _ _).mp hcond |>.2
        simpa using this
      rcases List.mem_singleton.mp hm with rfl
      exact h.1 hfile
  · exact h.2

theorem moveFile_R (env : Env) (od sd : String) (acc : St × List String)
    (rel x : String) (hnd : acc.1.outFiles.Nodup)
    (h : x ∈ acc.1.outFiles ∨
      (x ∈ acc.2 ∧ x ∉ acc.1.outFiles ∧
        sd ++ "/" ++ rsplitn2Last x ∈ acc.1.dirsCreated)) :
    x ∈ (moveFile env od sd acc rel).1.outFiles ∨
      (x ∈ (moveFile env od sd acc rel).2 ∧
        x ∉ (moveFile env od sd acc rel).1.outFiles ∧
        sd ++ "/" ++ rsplitn2Last x ∈ (moveFile env od sd acc rel).1.dirsCreated) := by
  rcases h with h | h
  · unfold moveFile
    split
    · by_cases hx : x = rustReplace (od ++ rel) od ""
      · refine Or.inr ⟨List.mem_append.mpr (Or.inr (List.mem_singleton.mpr hx)), ?_, ?_⟩
        · rw [hx]
          exact hnd.not_mem_erase
        · rw [hx]
          exact List.mem_append.mpr (Or.inr (List.mem_singleton.mpr rfl))
      · exact Or.inl ((List.mem_erase_of_ne hx).mpr h)
    · exact Or.inl h
  · exact Or.inr (moveFile_P env od sd acc rel x (sd ++ "/" ++ rsplitn2Last x) h)

theorem moveFold_acquire (env : Env) (od sd : String) (built : List String)
    (rel : String) (hmv : env.mvOk = true)
    (hrep : ∀ r ∈ built, rustReplace (od ++ r) od "" = r) :
    ∀ (m : List String) (acc : St × List String),
      m.Nodup → (∀ x ∈ m, x ∈ acc.1.outFiles) → acc.1.outFiles.Nodup →
      (∀ x ∈ acc.1.outFiles, x ∈ built) → rel ∈ m →
      rel ∈ (m.foldl (moveFile env od sd) acc).2 ∧
        rel ∉ (m.foldl (moveFile env od sd) acc).1.outFiles ∧
        sd ++ "/" ++ rsplitn2Last rel ∈ (m.foldl (moveFile env od sd) acc).1.dirsCreated := by
  intro m
  induction m with
  | nil => intro acc _ _ _ _ h; cases h
  | cons r' m ih =>
    intro acc hndm hmsub hnd hsub hrel
    have hr'out : r' ∈ acc.1.outFiles := hmsub r' (List.mem_cons_self r' m)
    have hr'rep : rustReplace (od ++ r') od "" = r' := hrep r' (hsub r' hr'out)
    have hcond : (env.mvOk && acc.1.outFiles.contains (rustReplace (od ++ r') od "")) = true := by
      rw [hr'rep, hmv]
      simpa using hr'out
    have hstep : moveFile env od sd acc r' =
        ({ acc.1 with
            dirsCreated := acc.1.dirsCreated ++ [sd ++ "/" ++ rsplitn2Last r'],
            outFiles := acc.1.outFiles.erase r' }, acc.2 ++ [r']) := by
      unfold moveFile
      rw [if_pos hcond, hr'rep]
    rcases List.mem_cons.mp hrel with hr | hr
    · subst hr
      have hP : rel ∈ (moveFile env od sd acc rel).2 ∧
          rel ∉ (moveFile env od sd acc rel).1.outFiles ∧
          sd ++ "/" ++ rsplitn2Last rel ∈ (moveFile env od sd acc rel).1.dirsCreated := by
        rw [hstep]
        exact ⟨List.mem_append.mpr (Or.inr (List.mem_singleton.mpr rfl)),
               hnd.not_mem_erase,
               List.mem_append.mpr (Or.inr (List.mem_singleton.mpr rfl))⟩
      simpa using
        foldlInv (moveFile env od sd)
          (fun b => rel ∈ b.2 ∧ rel ∉ b.1.outFiles ∧
            sd ++ "/" ++ rsplitn2Last rel ∈ b.1.dirsCreated)
          (fun b a hb => moveFile_P env od sd b a rel (sd ++ "/" ++ rsplitn2Last rel) hb)
          m (moveFile env od sd acc rel) hP
    · have hne : ∀ x ∈ m, x ≠ r' := by
        intro x hx hxe
        subst hxe
        exact (List.nodup_cons.mp hndm).1 hx
      have h1 : ∀ x ∈ m, x ∈ (moveFile env od sd acc r').1.outFiles := by
        intro x hx
        rw [hstep]
        exact (List.mem_erase_of_ne (hne x hx)).mpr (hmsub x (List.mem_cons_of_mem r' hx))
      have h2 : (moveFile env od sd acc r').1.outFiles.Nodup :=
        moveFile_nodup env od sd acc r' hnd
      have h3 : ∀ x ∈ (moveFile env od sd acc r').1.outFiles, x ∈ built :=
        fun x hx => hsub x (moveFile_subset env od sd acc r' hx)
      simpa using ih (moveFile env od sd acc r') (List.nodup_cons.mp hndm).2 h1 h2 h3 hr

theorem processSelector_selFrame (env : Env) (od sd : String)
    (acc : St × List String) (sel : String) :
    SelFrame (processSelector env od sd acc sel).1 acc.1 := by
  unfold processSelector
  split
  · exact ⟨rfl, rfl, rfl, rfl, rfl, rfl⟩
  · refine SelFrame_trans ?_ (⟨rfl, rfl, rfl, rfl, rfl, rfl⟩ :
      SelFrame { acc.1 with shCmds := acc.1.shCmds ++ [shExpandCmd od sel] } acc.1)
    exact foldlInv (moveFile env od sd)
      (fun b => SelFrame b.1 { acc.1 with shCmds := acc.1.shCmds ++ [shExpandCmd od sel] })
      (fun b a hb => SelFrame_trans (moveFile_selFrame env od sd b a) hb) _ _
      (SelFrame_refl _)

theorem processSelector_subset (env : Env) (od sd : String)
    (acc : St × List String) (sel : String) :
    (processSelector env od sd acc sel).1.outFiles ⊆ acc.1.outFiles := by
  unfold processSelector
  split
  · exact fun _ h => h
  · exact foldlInv (moveFile env od sd)
      (fun b => b.1.outFiles ⊆ acc.1.outFiles)
      (fun b a hb => (moveFile_subset env od sd b a).trans hb) _ _ (fun _ h => h)

theorem processSelector_nodup (env : Env) (od sd : String)
    (acc : St × List String) (sel : String) (h : acc.1.outFiles.Nodup) :
    (processSelector env od sd acc sel).1.outFiles.Nodup := by
  unfold processSelector
  split
  · exact h
  · exact foldlInv (moveFile env od sd)
      (fun b => b.1.outFiles.Nodup)
      (fun b a hb => moveFile_nodup env od sd b a hb) _ _ h

theorem processSelector_P (env : Env) (od sd : String)
    (acc : St × List String) (sel x d : String)
    (h : x ∈ acc.2 ∧ x ∉ acc.1.outFiles ∧ d ∈ acc.1.dirsCreated) :
    x ∈ (processSelector env od sd acc sel).2 ∧
      x ∉ (processSelector env od sd acc sel).1.outFiles ∧
      d ∈ (processSelector env od sd acc sel).1.dirsCreated := by
  unfold processSelector
  split
  · exact h
  · exact foldlInv (moveFile env od sd)
      (fun b => x ∈ b.2 ∧ x ∉ b.1.outFiles ∧ d ∈ b.1.dirsCreated)
      (fun b a hb => moveFile_P env od sd b a x d hb) _ _ h

theorem processSelector_Q (env : Env) (od sd : String)
    (acc : St × List String) (sel x : String)
    (h : x ∉ acc.1.outFiles ∧ x ∉ acc.2) :
    x ∉ (processSelector env od sd acc sel).1.outFiles ∧
      x ∉ (processSelector env od sd acc sel).2 := by
  unfold processSelector
  split
  · exact h
  · exact foldlInv (moveFile env od sd)
      (fun b => x ∉ b.1.outFiles ∧ x ∉ b.2)
      (fun b a hb => moveFile_Q env od sd b a x hb) _ _ h

theorem processSelector_R (env : Env) (od sd : String)
    (acc : St × List String) (sel x : String) (hnd : acc.1.outFiles.Nodup)
    (h : x ∈ acc.1.outFiles ∨
      (x ∈ acc.2 ∧ x ∉ acc.1.outFiles ∧
        sd ++ "/" ++ rsplitn2Last x ∈ acc.1.dirsCreated)) :
    x ∈ (processSelector env od sd acc sel).1.outFiles ∨
      (x ∈ (processSelector env od sd acc sel).2 ∧
        x ∉ (processSelector env od sd acc sel).1.outFiles ∧
        sd ++ "/" ++ rsplitn2Last x ∈ (processSelector env od sd acc sel).1.dirsCreated) := by
  unfold processSelector
  split
  · exact h
  · exact (foldlInv (moveFile env od sd)
      (fun b => b.1.outFiles.Nodup ∧
        (x ∈ b.1.outFiles ∨ (x ∈ b.2 ∧ x ∉ b.1.outFiles ∧
          sd ++ "/" ++ rsplitn2Last x ∈ b.1.dirsCreated)))
      (fun b a hb => ⟨moveFile_nodup env od sd b a hb.1,
                      moveFile_R env od sd b a x hb.1 hb.2⟩) _
      ({ acc.1 with shCmds := acc.1.shCmds ++ [shExpandCmd od sel] }, acc.2)
      ⟨hnd, h⟩).2

theorem processSelector_acquire (env : Env) (od sd : String) (built : List String)
    (rel sel : String) (acc : St × List String)
    (hsh : env.shStatus (od ++ sel) = 0)
    (hmv : env.mvOk = true)
    (hrep : ∀ r ∈ built, rustReplace (od ++ r) od "" = r)
    (hnd : acc.1.outFiles.Nodup) (hsub : ∀ x ∈ acc.1.outFiles, x ∈ built)
    (hrel : rel ∈ acc.1.outFiles)
    (hglob : env.glob (od ++ sel) (od ++ rel) = true) :
    rel ∈ (processSelector env od sd acc sel).2 ∧
      rel ∉ (processSelector env od sd acc sel).1.outFiles ∧
      sd ++ "/" ++ rsplitn2Last rel ∈
        (processSelector env od sd acc sel).1.dirsCreated := by
  unfold processSelector
  rw [if_neg (by simp [hsh])]
  refine moveFold_acquire env od sd built rel hmv hrep _ _
    (hnd.filter _) (fun x hx => List.mem_of_mem_filter hx) hnd hsub ?_
  exact List.mem_filter.mpr ⟨hrel, by simpa using hglob⟩

theorem selFold_selFrame (env : Env) (od sd : String) (sels : List String)
    (acc : St × List String) :
    SelFrame (sels.foldl (processSelector env od sd) acc).1 acc.1 :=
  foldlInv (processSelector env od sd) (fun b => SelFrame b.1 acc.1)
    (fun b a hb => SelFrame_trans (processSelector_selFrame env od sd b a) hb)
    sels acc (SelFrame_refl _)

theorem selFold_subset (env : Env) (od sd : String) (sels : List String)
    (acc : St × List String) :
    (sels.foldl (processSelector env od sd) acc).1.outFiles ⊆ acc.1.outFiles :=
  foldlInv (processSelector env od sd) (fun b => b.1.outFiles ⊆ acc.1.outFiles)
    (fun b a hb => (processSelector_subset env od sd b a).trans hb)
    sels acc (fun _ h => h)

theorem selFold_nodup (env : Env) (od sd : String) (sels : List String)
    (acc : St × List String) (h : acc.1.outFiles.Nodup) :
    (sels.foldl (processSelector env od sd) acc).1.outFiles.Nodup :=
  foldlInv (processSelector env od sd) (fun b => b.1.outFiles.Nodup)
    (fun b a hb => processSelector_nodup env od sd b a hb) sels acc h

theorem selFold_Q (env : Env) (od sd : String) (sels : List String)
    (acc : St × List String) (x : String)
    (h : x ∉ acc.1.outFiles ∧ x ∉ acc.2) :
    x ∉ (sels.foldl (processSelector env od sd) acc).1.outFiles ∧
      x ∉ (sels.foldl (processSelector env od sd) acc).2 :=
  foldlInv (processSelector env od sd) (fun b => x ∉ b.1.outFiles ∧ x ∉ b.2)
    (fun b a hb => processSelector_Q env od sd b a x hb) sels acc h

theorem selFold_acquire (env : Env) (od sd : String) (built : List String)
    (rel : String)
    (hsh : ∀ p, env.shStatus p = 0) (hmv : env.mvOk = true)
    (hrep : ∀ r ∈ built, rustReplace (od ++ r) od "" = r) :
    ∀ (sels : List String) (acc : St × List String),
      acc.1.outFiles.Nodup → (∀ x ∈ acc.1.outFiles, x ∈ built) →
      rel ∈ acc.1.outFiles →
      (∃ sel ∈ sels, env.glob (od ++ sel) (od ++ rel) = true) →
      rel ∈ (sels.foldl (processSelector env od sd) acc).2 ∧
        rel ∉ (sels.foldl (processSelector env od sd) acc).1.outFiles ∧
        sd ++ "/" ++ rsplitn2Last rel ∈
          (sels.foldl (processSelector env od sd) acc).1.dirsCreated := by
  intro sels
  induction sels with
  | nil =>
    intro acc _ _ _ hex
    exact absurd hex (by simp)
  | cons sel0 sels ih =>
    intro acc hnd hsub hrel hex
    obtain ⟨sel, hsel, hglob⟩ := hex
    have hnd1 : (processSelector env od sd acc sel0).1.outFiles.Nodup :=
      processSelector_nodup env od sd acc sel0 hnd
    have hsub1 : ∀ x ∈ (processSelector env od sd acc sel0).1.outFiles, x ∈ built :=
      fun x hx => hsub x (processSelector_subset env od sd acc sel0 hx)
    rcases List.mem_cons.mp hsel with hs | hs
    · subst hs
      have hP := processSelector_acquire env od sd built rel sel acc
        (hsh (od ++ sel)) hmv hrep hnd hsub hrel hglob
      simpa using
        foldlInv (processSelector env od sd)
          (fun b => rel ∈ b.2 ∧ rel ∉ b.1.outFiles ∧
            sd ++ "/" ++ rsplitn2Last rel ∈ b.1.dirsCreated)
          (fun b a hb => processSelector_P env od sd b a rel
            (sd ++ "/" ++ rsplitn2Last rel) hb)
          sels (processSelector env od sd acc sel) hP
    · rcases processSelector_R env od sd acc sel0 rel hnd (Or.inl hrel) with hin | hP
      · simpa using ih (processSelector env od sd acc sel0) hnd1 hsub1 hin ⟨sel, hs, hglob⟩
      · simpa using
          foldlInv (processSelector env od sd)
            (fun b => rel ∈ b.2 ∧ rel ∉ b.1.outFiles ∧
              sd ++ "/" ++ rsplitn2Last rel ∈ b.1.dirsCreated)
            (fun b a hb => processSelector_P env od sd b a rel
              (sd ++ "/" ++ rsplitn2Last rel) hb)
            sels (processSelector env od sd acc sel0) hP

theorem processSelector_shCmds (env : Env) (od sd : String)
    (acc : St × List String) (sel : String) :
    (processSelector env od sd acc sel).1.shCmds =
      acc.1.shCmds ++ [shExpandCmd od sel] := by
  unfold processSelector
  split
  · rfl
  · exact foldlInv (moveFile env od sd)
      (fun b => b.1.shCmds = acc.1.shCmds ++ [shExpandCmd od sel])
      (fun b a hb => (moveFile_shCmds env od sd b a).trans hb) _
      ({ acc.1 with shCmds := acc.1.shCmds ++ [shExpandCmd od sel] }, acc.2) rfl

theorem selFold_shCmds (env : Env) (od sd : String) :
    ∀ (sels : List String) (acc : St × List String),
      (sels.foldl (processSelector env od sd) acc).1.shCmds =
        acc.1.shCmds ++ sels.map (shExpandCmd od) := by
  intro sels
  induction sels with
  | nil => intro acc; simp
  | cons sel sels ih =>
    intro acc
    rw [List.foldl_cons, ih, processSelector_shCmds]
    simp

theorem selFold_zeroMatch (env : Env) (od sd : String)
    (hsh : ∀ p, env.shStatus p = 0) :
    ∀ (sels : List String) (acc : St × List String),
      (∀ sel ∈ sels, ∀ r0, env.glob (od ++ sel) (od ++ r0) = false) →
      sels.foldl (processSelector env od sd) acc =
        ({ acc.1 with shCmds := acc.1.shCmds ++ sels.map (shExpandCmd od) }, acc.2) := by
  intro sels
  induction sels with
  | nil => intro acc _; simp
  | cons sel sels ih =>
    intro acc hzero
    rw [List.foldl_cons]
    have hstep : processSelector env od sd acc sel =
        ({ acc.1 with shCmds := acc.1.shCmds ++ [shExpandCmd od sel] }, acc.2) := by
      unfold processSelector
      rw [if_neg (by simp [hsh])]
      have hfil : List.filter
          (fun rel => env.glob (od ++ sel) (od ++ rel))
          ({ acc.1 with shCmds := acc.1.shCmds ++ [shExpandCmd od sel] } : St).outFiles
          = [] := by
        apply List.filter_eq_nil_iff.mpr
        intro a _
        simp [hzero sel (List.mem_cons_self sel sels) a]
      rw [hfil]
      rfl
    rw [hstep, ih _ (fun s hs r0 => hzero s (List.mem_cons_of_mem sel hs) r0)]
    simp

theorem processSubpackage_first (env : Env) (od pd op : String) (st : St)
    (sp : PkgFileSubPackage) (built : List String) (rel : String)
    (hsh : ∀ p, env.shStatus p = 0) (hmv : env.mvOk = true)
    (htar : env.tarOk (tarballName op sp) = true)
    (hcopy : env.copyOk (tarballCopyDest op (tarballName op sp)) = true)
    (hrep : ∀ r ∈ built, rustReplace (od ++ r) od "" = r)
    (hnd : st.outFiles.Nodup) (hsub : ∀ x ∈ st.outFiles, x ∈ built)
    (hrel : rel ∈ st.outFiles)
    (hmatch : ∃ sel ∈ sp.files, env.glob (od ++ sel) (od ++ rel) = true) :
    (processSubpackage env od pd op st sp).panicMsg = none ∧
    (∃ tree, (processSubpackage env od pd op st sp).st.archives =
        st.archives ++ [(tarballName op sp, "/package.toml" :: tree)] ∧ rel ∈ tree) ∧
    rel ∉ (processSubpackage env od pd op st sp).st.outFiles ∧
    (processSubpackage env od pd op st sp).st.outFiles.Nodup ∧
    (∀ x ∈ (processSubpackage env od pd op st sp).st.outFiles, x ∈ built) ∧
    SubFrame (processSubpackage env od pd op st sp).st st ∧
    pd ++ "/" ++ sp.name ++ "/" ++ rsplitn2Last rel ∈
      (processSubpackage env od pd op st sp).st.dirsCreated := by
  have hacq := selFold_acquire env od (pd ++ "/" ++ sp.name) built rel hsh hmv hrep
    sp.files (st, []) hnd hsub hrel hmatch
  have hframe := selFold_selFrame env od (pd ++ "/" ++ sp.name) sp.files (st, [])
  have hnd2 := selFold_nodup env od (pd ++ "/" ++ sp.name) sp.files (st, []) hnd
  have hsubset := selFold_subset env od (pd ++ "/" ++ sp.name) sp.files (st, [])
  unfold processSubpackage
  rw [if_neg (by simp [htar]), if_pos (by simpa using hcopy)]
  refine ⟨rfl, ⟨(sp.files.foldl (processSelector env od (pd ++ "/" ++ sp.name)) (st, [])).2,
    ?_, hacq.1⟩, hacq.2.1, hnd2, fun x hx => hsub x (hsubset hx), ?_, hacq.2.2⟩
  · show (sp.files.foldl (processSelector env od (pd ++ "/" ++ sp.name)) (st, [])).1.archives
        ++ _ = _
    rw [hframe.1]
  · exact ⟨hframe.2.2.1, hframe.2.2.2.1, hframe.2.2.2.2.1, hframe.2.2.2.2.2⟩

theorem processSubpackage_Q (env : Env) (od pd op : String) (st : St)
    (sp : PkgFileSubPackage) (rel : String)
    (htar : ∀ t, env.tarOk t = true) (hcopy : ∀ d, env.copyOk d = true)
    (hman : rel ≠ "/package.toml") (hq : rel ∉ st.outFiles) :
    (processSubpackage env od pd op st sp).panicMsg = none ∧
    rel ∉ (processSubpackage env od pd op st sp).st.outFiles ∧
    (∃ es, (processSubpackage env od pd op st sp).st.archives = st.archives ++ [es] ∧
      rel ∉ es.2) := by
  have hQ := selFold_Q env od (pd ++ "/" ++ sp.name) sp.files (st, []) rel
    ⟨hq, List.not_mem_nil rel⟩
  have hframe := selFold_selFrame env od (pd ++ "/" ++ sp.name) sp.files (st, [])
  unfold processSubpackage
  rw [if_neg (by simp [htar]), if_pos (by simpa using hcopy _)]
  refine ⟨rfl, hQ.1, ⟨(tarballName op sp,
    "/package.toml" :: (sp.files.foldl (processSelector env od (pd ++ "/" ++ sp.name)) (st, [])).2),
    ?_, ?_⟩⟩
  · show (sp.files.foldl (processSelector env od (pd ++ "/" ++ sp.name)) (st, [])).1.archives
        ++ _ = _
    rw [hframe.1]
  · intro hm
    rcases List.mem_cons.mp hm with hm | hm
    · exact hman hm
    · exact hQ.2 hm

theorem processSubpackage_subFrame (env : Env) (od pd op : String) (st : St)
    (sp : PkgFileSubPackage) :
    SubFrame (processSubpackage env od pd op st sp).st st := by
  have hframe := selFold_selFrame env od (pd ++ "/" ++ sp.name) sp.files (st, [])
  have hf : SubFrame
      (sp.files.foldl (processSelector env od (pd ++ "/" ++ sp.name)) (st, [])).1 st :=
    ⟨hframe.2.2.1, hframe.2.2.2.1, hframe.2.2.2.2.1, hframe.2.2.2.2.2⟩
  simp only [processSubpackage]
  split
  · exact hf
  · split
    · exact hf
    · exact hf

theorem processSubpackage_outSubset (env : Env) (od pd op : String) (st : St)
    (sp : PkgFileSubPackage) :
    (processSubpackage env od pd op st sp).st.outFiles ⊆ st.outFiles := by
  have hsubset := selFold_subset env od (pd ++ "/" ++ sp.name) sp.files (st, [])
  simp only [processSubpackage]
  split
  · exact hsubset
  · split
    · exact hsubset
    · exact hsubset

theorem processSubpackage_manifest (env : Env) (od pd op : String) (st : St)
    (sp : PkgFileSubPackage) :
    ∃ Δ, (processSubpackage env od pd op st sp).st.archives = st.archives ++ Δ ∧
      ∀ es ∈ Δ, "/package.toml" ∈ es.2 := by
  have hframe := selFold_selFrame env od (pd ++ "/" ++ sp.name) sp.files (st, [])
  simp only [processSubpackage]
  split
  · exact ⟨[], by simp [hframe.1], by simp⟩
  · split
    · refine ⟨[(tarballName op sp,
        "/package.toml" ::
          (sp.files.foldl (processSelector env od (pd ++ "/" ++ sp.name)) (st, [])).2)],
        ?_, ?_⟩
      · show (sp.files.foldl (processSelector env od (pd ++ "/" ++ sp.name)) (st, [])).1.archives
            ++ _ = _
        rw [hframe.1]
      · intro es hes
        rcases List.mem_singleton.mp hes with rfl
        exact List.mem_cons_self _ _
    · refine ⟨[(tarballName op sp,
        "/package.toml" ::
          (sp.files.foldl (processSelector env od (pd ++ "/" ++ sp.name)) (st, [])).2)],
        ?_, ?_⟩
      · show (sp.files.foldl (processSelector env od (pd ++ "/" ++ sp.name)) (st, [])).1.archives
            ++ _ = _
        rw [hframe.1]
      · intro es hes
        rcases List.mem_singleton.mp hes with rfl
        exact List.mem_cons_self _ _

theorem processSubpackage_shCmds (env : Env) (od pd op : String) (st : St)
    (sp : PkgFileSubPackage) :
    (processSubpackage env od pd op st sp).st.shCmds =
      st.shCmds ++ sp.files.map (shExpandCmd od) := by
  have h := selFold_shCmds env od (pd ++ "/" ++ sp.name) sp.files (st, [])
  simp only [processSubpackage]
  split
  · exact h
  · split
    · exact h
    · exact h

theorem processSubpackage_none (env : Env) (od pd op : String) (st : St)
    (sp : PkgFileSubPackage)
    (htar : ∀ t, env.tarOk t = true) (hcopy : ∀ d, env.copyOk d = true) :
    (processSubpackage env od pd op st sp).panicMsg = none := by
  unfold processSubpackage
  rw [if_neg (by simp [htar]), if_pos (by simpa using hcopy _)]

theorem processSubpackage_zeroMatch (env : Env) (od pd op : String) (st : St)
    (sp : PkgFileSubPackage)
    (hsh : ∀ p, env.shStatus p = 0)
    (hzero : ∀ sel ∈ sp.files, ∀ r0, env.glob (od ++ sel) (od ++ r0) = false)
    (htar : env.tarOk (tarballName op sp) = true)
    (hcopy : env.copyOk (tarballCopyDest op (tarballName op sp)) = true) :
    processSubpackage env od pd op st sp =
      ⟨{ st with
          shCmds := st.shCmds ++ sp.files.map (shExpandCmd od),
          archives := st.archives ++ [(tarballName op sp, ["/package.toml"])],
          copies := st.copies ++
            [(tarballName op sp, tarballCopyDest op (tarballName op sp))] }, none⟩ := by
  simp only [processSubpackage]
  rw [selFold_zeroMatch env od (pd ++ "/" ++ sp.name) hsh sp.files (st, []) hzero]
  rw [if_neg (by simp [htar]), if_pos (by simpa using hcopy)]

theorem processSubpackages_cons (env : Env) (od pd op : String) (st : St)
    (sp : PkgFileSubPackage) (sps : List PkgFileSubPackage) :
    processSubpackages env od pd op st (sp :: sps) =
      match (processSubpackage env od pd op st sp).panicMsg with
      | none => processSubpackages env od pd op (processSubpackage env od pd op st sp).st sps
      | some m => ⟨(processSubpackage env od pd op st sp).st, some m⟩ := rfl

theorem processSubpackages_subFrame (env : Env) (od pd op : String) :
    ∀ (sps : List PkgFileSubPackage) (st : St),
      SubFrame (processSubpackages env od pd op st sps).st st := by
  intro sps
  induction sps with
  | nil => intro st; exact SubFrame_refl st
  | cons sp sps ih =>
    intro st
    rw [processSubpackages_cons]
    cases hp : (processSubpackage env od pd op st sp).panicMsg with
    | none =>
      exact SubFrame_trans (ih _) (processSubpackage_subFrame env od pd op st sp)
    | some m =>
      exact processSubpackage_subFrame env od pd op st sp

theorem processSubpackages_outSubset (env : Env) (od pd op : String) :
    ∀ (sps : List PkgFileSubPackage) (st : St),
      (processSubpackages env od pd op st sps).st.outFiles ⊆ st.outFiles := by
  intro sps
  induction sps with
  | nil => intro st _ h; exact h
  | cons sp sps ih =>
    intro st
    rw [processSubpackages_cons]
    cases hp : (processSubpackage env od pd op st sp).panicMsg with
    | none =>
      exact (ih _).trans (processSubpackage_outSubset env od pd op st sp)
    | some m =>
      exact processSubpackage_outSubset env od pd op st sp

theorem processSubpackages_manifest (env : Env) (od pd op : String) :
    ∀ (sps : List PkgFileSubPackage) (st : St),
      ∃ Δ, (processSubpackages env od pd op st sps).st.archives = st.archives ++ Δ ∧
        ∀ es ∈ Δ, "/package.toml" ∈ es.2 := by
  intro sps
  induction sps with
  | nil =>
    intro st
    exact ⟨[], by show st.archives = st.archives ++ []; simp, by simp⟩
  | cons sp sps ih =>
    intro st
    obtain ⟨Δ1, h1, h1m⟩ := processSubpackage_manifest env od pd op st sp
    rw [processSubpackages_cons]
    cases hp : (processSubpackage env od pd op st sp).panicMsg with
    | none =>
      obtain ⟨Δ2, h2, h2m⟩ := ih (processSubpackage env od pd op st sp).st
      refine ⟨Δ1 ++ Δ2, ?_, ?_⟩
      · show (processSubpackages env od pd op (processSubpackage env od pd op st sp).st
          sps).st.archives = _
        rw [h2, h1, List.append_assoc]
      · intro es hes
        rcases List.mem_append.mp hes with h | h
        · exact h1m es h
        · exact h2m es h
    | some m =>
      exact ⟨Δ1, h1, h1m⟩

theorem processSubpackages_shCmdsPrefix (env : Env) (od pd op : String) :
    ∀ (sps : List PkgFileSubPackage) (st : St),
      ∃ t, (processSubpackages env od pd op st sps).st.shCmds = st.shCmds ++ t := by
  intro sps
  induction sps with
  | nil =>
    intro st
    exact ⟨[], by show st.shCmds = st.shCmds ++ []; simp⟩
  | cons sp sps ih =>
    intro st
    have h1 := processSubpackage_shCmds env od pd op st sp
    rw [processSubpackages_cons]
    cases hp : (processSubpackage env od pd op st sp).panicMsg with
    | none =>
      obtain ⟨t2, h2⟩ := ih (processSubpackage env od pd op st sp).st
      refine ⟨sp.files.map (shExpandCmd od) ++ t2, ?_⟩
      show (processSubpackages env od pd op (processSubpackage env od pd op st sp).st
        sps).st.shCmds = _
      rw [h2, h1, List.append_assoc]
    | some m =>
      exact ⟨sp.files.map (shExpandCmd od), h1⟩

theorem processSubpackages_archivesPrefix (env : Env) (od pd op : String) :
    ∀ (sps : List PkgFileSubPackage) (st : St),
      ∃ Δ, (processSubpackages env od pd op st sps).st.archives = st.archives ++ Δ := by
  intro sps st
  obtain ⟨Δ, h, _⟩ := processSubpackages_manifest env od pd op sps st
  exact ⟨Δ, h⟩

theorem processSubpackages_none (env : Env) (od pd op : String)
    (htar : ∀ t, env.tarOk t = true) (hcopy : ∀ d, env.copyOk d = true) :
    ∀ (sps : List PkgFileSubPackage) (st : St),
      (processSubpackages env od pd op st sps).panicMsg = none := by
  intro sps
  induction sps with
  | nil => intro st; rfl
  | cons sp sps ih =>
    intro st
    rw [processSubpackages_cons, processSubpackage_none env od pd op st sp htar hcopy]
    exact ih _

theorem processSubpackages_split (env : Env) (od pd op : String)
    (htar : ∀ t, env.tarOk t = true) (hcopy : ∀ d, env.copyOk d = true) :
    ∀ (l1 l2 : List PkgFileSubPackage) (st : St),
      processSubpackages env od pd op st (l1 ++ l2) =
        processSubpackages env od pd op (processSubpackages env od pd op st l1).st l2 := by
  intro l1
  induction l1 with
  | nil => intro l2 st; rfl
  | cons sp l1 ih =>
    intro l2 st
    show processSubpackages env od pd op st (sp :: (l1 ++ l2)) = _
    rw [processSubpackages_cons, processSubpackage_none env od pd op st sp htar hcopy,
        processSubpackages_cons, processSubpackage_none env od pd op st sp htar hcopy]
    exact ih l2 _

theorem processSubpackages_Q (env : Env) (od pd op : String) (rel : String)
    (htar : ∀ t, env.tarOk t = true) (hcopy : ∀ d, env.copyOk d = true)
    (hman : rel ≠ "/package.toml") :
    ∀ (sps : List PkgFileSubPackage) (st : St), rel ∉ st.outFiles →
      (processSubpackages env od pd op st sps).panicMsg = none ∧
      rel ∉ (processSubpackages env od pd op st sps).st.outFiles ∧
      (∃ Δ, (processSubpackages env od pd op st sps).st.archives = st.archives ++ Δ ∧
        ∀ es ∈ Δ, rel ∉ es.2) := by
  intro sps
  induction sps with
  | nil =>
    intro st hq
    exact ⟨rfl, hq, ⟨[], by show st.archives = st.archives ++ []; simp, by simp⟩⟩
  | cons sp sps ih =>
    intro st hq
    obtain ⟨hp, hq1, es1, he1, hn1⟩ := processSubpackage_Q env od pd op st sp rel
      htar hcopy hman hq
    rw [processSubpackages_cons, hp]
    obtain ⟨hp2, hq2, Δ2, he2, hn2⟩ := ih (processSubpackage env od pd op st sp).st hq1
    refine ⟨hp2, hq2, ⟨[es1] ++ Δ2, ?_, ?_⟩⟩
    · show (processSubpackages env od pd op (processSubpackage env od pd op st sp).st
        sps).st.archives = _
      rw [he2, he1, List.append_assoc]
    · intro es hes
      rcases List.mem_append.mp hes with h | h
      · rcases List.mem_singleton.mp h with rfl
        exact hn1
      · exact hn2 es h

theorem packagePhase_ok_some (env : Env) (pkg : PkgFile)
    (bd od pd op : String) (st : St) (sps : List PkgFileSubPackage)
    (hsub : pkg.subpackage = some sps)
    (hnone : (processSubpackages env od pd op st sps).panicMsg = none)
    (hmv : env.mvOk = true) (hbd : env.removeOk bd = true)
    (hpd : env.removeOk pd = true) :
    packagePhase env pkg bd od pd op st =
      ⟨{ (processSubpackages env od pd op st sps).st with
          mainTree := some (processSubpackages env od pd op st sps).st.outFiles,
          outFiles := [], buildDirRemoved := true, packageDirRemoved := true }, none⟩ := by
  simp only [packagePhase, hsub, hnone, hmv, hbd, hpd]
  rfl

theorem packagePhase_ok_none (env : Env) (pkg : PkgFile)
    (bd od pd op : String) (st : St)
    (hsub : pkg.subpackage = none)
    (hmv : env.mvOk = true) (hbd : env.removeOk bd = true)
    (hpd : env.removeOk pd = true) :
    packagePhase env pkg bd od pd op st =
      ⟨{ st with
          mainTree := some st.outFiles,
          outFiles := [],
          buildDirRemoved := true,
          packageDirRemoved := true }, none⟩ := by
  simp only [packagePhase, hsub, hmv, hbd, hpd]
  rfl

theorem packagePhase_panicProp (env : Env) (pkg : PkgFile)
    (bd od pd op : String) (st : St) (sps : List PkgFileSubPackage) (m : String)
    (hsub : pkg.subpackage = some sps)
    (hpan : (processSubpackages env od pd op st sps).panicMsg = some m) :
    packagePhase env pkg bd od pd op st =
      ⟨(processSubpackages env od pd op st sps).st, some m⟩ := by
  simp only [packagePhase, hsub, hpan]

theorem packagePhase_rmBuildFail (env : Env) (pkg : PkgFile)
    (bd od pd op : String) (st : St)
    (htar : ∀ t, env.tarOk t = true) (hcopy : ∀ d, env.copyOk d = true)
    (hbd : env.removeOk bd = false) :
    (packagePhase env pkg bd od pd op st).panicMsg =
      some "Unable to remove build directory" ∧
    (packagePhase env pkg bd od pd op st).st.buildDirRemoved = st.buildDirRemoved := by
  cases hsub : pkg.subpackage with
  | none =>
    by_cases hmv : env.mvOk <;> simp [packagePhase, hsub, hbd, hmv]
  | some sps =>
    have hnone := processSubpackages_none env od pd op htar hcopy sps st
    have hframe := processSubpackages_subFrame env od pd op sps st
    by_cases hmv : env.mvOk <;>
      simp [packagePhase, hsub, hnone, hbd, hmv, hframe.2.1]

theorem packagePhase_stFields_none (env : Env) (pkg : PkgFile)
    (bd od pd op : String) (st : St)
    (hsub : pkg.subpackage = none) :
    ∃ mt of b1 b2,
      (packagePhase env pkg bd od pd op st).st =
        { st with mainTree := mt, outFiles := of, buildDirRemoved := b1,
                  packageDirRemoved := b2 } := by
  simp only [packagePhase, hsub]
  by_cases hmv : env.mvOk = true <;>
    by_cases hbd : env.removeOk bd = true <;>
      by_cases hpd : env.removeOk pd = true <;>
        simp only [hmv, hbd, hpd, Bool.not_eq_true] at * <;>
          simp only [packagePhase, hmv, hbd, hpd, if_true, if_false,
            Bool.false_eq_true, Bool.true_eq_false, ite_true, ite_false] <;>
            exact ⟨_, _, _, _, rfl⟩

theorem packagePhase_stFields_some (env : Env) (pkg : PkgFile)
    (bd od pd op : String) (st : St) (sps : List PkgFileSubPackage)
    (hsub : pkg.subpackage = some sps) :
    ∃ mt of b1 b2,
      (packagePhase env pkg bd od pd op st).st =
        { (processSubpackages env od pd op st sps).st with
            mainTree := mt, outFiles := of, buildDirRemoved := b1,
            packageDirRemoved := b2 } := by
  cases hp : (processSubpackages env od pd op st sps).panicMsg with
  | some m =>
    rw [packagePhase_panicProp env pkg bd od pd op st sps m hsub hp]
    exact ⟨_, _, _, _, rfl⟩
  | none =>
    simp only [packagePhase, hsub, hp]
    by_cases hmv : env.mvOk = true <;>
      by_cases hbd : env.removeOk bd = true <;>
        by_cases hpd : env.removeOk pd = true <;>
          simp only [hmv, hbd, hpd, Bool.not_eq_true] at * <;>
            simp only [hmv, hbd, hpd, if_true, if_false,
              Bool.false_eq_true, Bool.true_eq_false, ite_true, ite_false] <;>
              exact ⟨_, _, _, _, rfl⟩

theorem mainRun_buildFail (env : Env) (pkg : PkgFile)
    (bd od pd op : String) (built : List String) (b : PkgFileBuild)
    (hb : pkg.build = some b) (hexit : env.buildExit ≠ 0) :
    mainRun env pkg bd od pd op built =
      ⟨{ initSt built with
          execs := [buildInvocation b],
          errLog := ["Build script failed"] }, some "Build script failed"⟩ := by
  simp only [mainRun, hb]
  rw [if_pos hexit]
  rfl

theorem mainRun_buildOk (env : Env) (pkg : PkgFile)
    (bd od pd op : String) (built : List String) (b : PkgFileBuild)
    (hb : pkg.build = some b) (hexit : env.buildExit = 0) :
    mainRun env pkg bd od pd op built =
      packagePhase env pkg bd od pd op
        { initSt built with execs := [buildInvocation b] } := by
  simp only [mainRun, hb]
  rw [if_neg (by simp [hexit])]

theorem mainRun_noBuild (env : Env) (pkg : PkgFile)
    (bd od pd op : String) (built : List String)
    (hb : pkg.build = none) :
    mainRun env pkg bd od pd op built =
      packagePhase env pkg bd od pd op (initSt built) := by
  simp only [mainRun, hb]

theorem ends_with_getLast (s suf : String) (c : Char)
    (h : ends_with s suf = true) (hl : suf.data.getLast? = some c) :
    s.data.getLast? = some c := by
  unfold ends_with at h
  obtain ⟨t, ht⟩ := List.isSuffixOf_iff_suffix.mp h
  have h2 : suf.data ≠ [] := by
    intro hn
    rw [hn] at hl
    simp at hl
  rw [← ht, List.getLast?_append_of_ne_nil t h2]
  exact hl

theorem filter_fetchGit (env : Env) (dest : String) (src : PkgFileSource) :
    (fetchGit env dest src).filter (fun e => !isLogErr e) =
      fetchGitActions dest src := by
  unfold fetchGit fetchGitActions
  split
  · by_cases h1 : env.gitCloneStatus src.source = 0 <;>
      cases hc : src.git_commit with
      | none => simp [isLogErr, h1]
      | some c =>
        by_cases h2 : env.gitResetStatus src.source = 0 <;>
          simp [isLogErr, h1, h2]
  · rfl

theorem filter_fetchTarball (env : Env) (dest : String) (src : PkgFileSource) :
    (fetchTarball env dest src).filter (fun e => !isLogErr e) =
      fetchTarballActions dest src := by
  unfold fetchTarball fetchTarballActions
  split
  · by_cases h1 : env.curlStatus src.source = 0 <;>
      by_cases h2 : env.fetchTarStatus src.source = 0 <;>
        simp [isLogErr, h1, h2]
  · rfl

theorem filter_fetchZip (env : Env) (dest : String) (src : PkgFileSource) :
    (fetchZip env dest src).filter (fun e => !isLogErr e) =
      fetchZipActions dest src := by
  unfold fetchZip fetchZipActions
  split
  · by_cases h1 : env.curlStatus src.source = 0 <;>
      by_cases h2 : env.unzipStatus src.source = 0 <;>
        simp [isLogErr, h1, h2]
  · rfl

theorem filter_fetchSource (env : Env) (bd : String) (src : PkgFileSource) :
    (fetchSource env bd src).filter (fun e => !isLogErr e) =
      fetchSourceActions bd src := by
  unfold fetchSource fetchSourceActions
  rw [List.filter_append, List.filter_append,
      filter_fetchGit, filter_fetchTarball, filter_fetchZip]

theorem fetchSources_append (env : Env) (bd : String) :
    ∀ (l1 l2 : List PkgFileSource),
      fetchSources env bd (l1 ++ l2) =
        fetchSources env bd l1 ++ fetchSources env bd l2 := by
  intro l1
  induction l1 with
  | nil => intro l2; rfl
  | cons s l1 ih =>
    intro l2
    show fetchSource env bd s ++ fetchSources env bd (l1 ++ l2) = _
    rw [ih, ← List.append_assoc]
    rfl

theorem fetchTarSuffix_getLast (s : String)
    (htar : (ends_with s ".tar.gz" || ends_with s ".tgz"
        || ends_with s ".tar.bz2" || ends_with s ".tar.xz") = true) :
    s.data.getLast? = some 'z' ∨ s.data.getLast? = some '2' := by
  rcases Bool.or_eq_true_iff.mp htar with h | h4
  · rcases Bool.or_eq_true_iff.mp h with h | h3
    · rcases Bool.or_eq_true_iff.mp h with h1 | h2
      · exact Or.inl (ends_with_getLast s ".tar.gz" 'z' h1 (by decide))
      · exact Or.inl (ends_with_getLast s ".tgz" 'z' h2 (by decide))
    · exact Or.inr (ends_with_getLast s ".tar.bz2" '2' h3 (by decide))
  · exact Or.inl (ends_with_getLast s ".tar.xz" 'z' h4 (by decide))

theorem fetchTarSuffix_not_git (s : String)
    (htar : (ends_with s ".tar.gz" || ends_with s ".tgz"
        || ends_with s ".tar.bz2" || ends_with s ".tar.xz") = true) :
    ends_with s ".git" = false := by
  by_contra hgit
  have hg : ends_with s ".git" = true := by
    revert hgit
    cases ends_with s ".git" <;> simp
  have h1 := ends_with_getLast s ".git" 't' hg (by decide)
  rcases fetchTarSuffix_getLast s htar with h | h <;> rw [h1] at h <;> simp at h

theorem fetchTarSuffix_not_zip (s : String)
    (htar : (ends_with s ".tar.gz" || ends_with s ".tgz"
        || ends_with s ".tar.bz2" || ends_with s ".tar.xz") = true) :
    ends_with s ".zip" = false := by
  by_contra hzip
  have hz : ends_with s ".zip" = true := by
    revert hzip
    cases ends_with s ".zip" <;> simp
  have h1 := ends_with_getLast s ".zip" 'p' hz (by decide)
  rcases fetchTarSuffix_getLast s htar with h | h <;> rw [h1] at h <;> simp at h

theorem zipSuffix_not_git (s : String) (hzip : ends_with s ".zip" = true) :
    ends_with s ".git" = false := by
  by_contra hgit
  have hg : ends_with s ".git" = true := by
    revert hgit
    cases ends_with s ".git" <;> simp
  have h1 := ends_with_getLast s ".git" 't' hg (by decide)
  have h2 := ends_with_getLast s ".zip" 'p' hzip (by decide)
  rw [h1] at h2
  simp at h2

theorem zipSuffix_not_tar (s : String) (hzip : ends_with s ".zip" = true) :
    (ends_with s ".tar.gz" || ends_with s ".tgz"
        || ends_with s ".tar.bz2" || ends_with s ".tar.xz") = false := by
  by_contra htar
  have ht : (ends_with s ".tar.gz" || ends_with s ".tgz"
      || ends_with s ".tar.bz2" || ends_with s ".tar.xz") = true := by
    revert htar
    cases (ends_with s ".tar.gz" || ends_with s ".tgz"
        || ends_with s ".tar.bz2" || ends_with s ".tar.xz") <;> simp
  have h2 := ends_with_getLast s ".zip" 'p' hzip (by decide)
  rcases fetchTarSuffix_getLast s ht with h | h <;> rw [h2] at h <;> simp at h

theorem packagePhase_execs (env : Env) (pkg : PkgFile)
    (bd od pd op : String) (st : St) :
    (packagePhase env pkg bd od pd op st).st.execs = st.execs := by
  cases hsub : pkg.subpackage with
  | none =>
    obtain ⟨mt, of, b1, b2, h⟩ := packagePhase_stFields_none env pkg bd od pd op st hsub
    rw [h]
  | some sps =>
    obtain ⟨mt, of, b1, b2, h⟩ := packagePhase_stFields_some env pkg bd od pd op st sps hsub
    rw [h]
    exact (processSubpackages_subFrame env od pd op sps st).2.2.2

theorem packagePhase_shCmds (env : Env) (pkg : PkgFile)
    (bd od pd op : String) (st : St) :
    ∃ t, (packagePhase env pkg bd od pd op st).st.shCmds = st.shCmds ++ t := by
  cases hsub : pkg.subpackage with
  | none =>
    obtain ⟨mt, of, b1, b2, h⟩ := packagePhase_stFields_none env pkg bd od pd op st hsub
    rw [h]
    exact ⟨[], by simp⟩
  | some sps =>
    obtain ⟨mt, of, b1, b2, h⟩ := packagePhase_stFields_some env pkg bd od pd op st sps hsub
    rw [h]
    exact processSubpackages_shCmdsPrefix env od pd op sps st

theorem packagePhase_archives_none (env : Env) (pkg : PkgFile)
    (bd od pd op : String) (st : St) (hsub : pkg.subpackage = none) :
    (packagePhase env pkg bd od pd op st).st.archives = st.archives := by
  obtain ⟨mt, of, b1, b2, h⟩ := packagePhase_stFields_none env pkg bd od pd op st hsub
  rw [h]

theorem packagePhase_archives_some (env : Env) (pkg : PkgFile)
    (bd od pd op : String) (st : St) (sps : List PkgFileSubPackage)
    (hsub : pkg.subpackage = some sps) :
    (packagePhase env pkg bd od pd op st).st.archives =
      (processSubpackages env od pd op st sps).st.archives := by
  obtain ⟨mt, of, b1, b2, h⟩ := packagePhase_stFields_some env pkg bd od pd op st sps hsub
  rw [h]

theorem packagePhase_mainTree_none (env : Env) (pkg : PkgFile)
    (bd od pd op : String) (st : St) (hsub : pkg.subpackage = none) :
    (packagePhase env pkg bd od pd op st).st.mainTree = st.mainTree ∨
    (packagePhase env pkg bd od pd op st).st.mainTree = some st.outFiles := by
  simp only [packagePhase, hsub]
  by_cases hmv : env.mvOk = true <;>
    by_cases hbd : env.removeOk bd = true <;>
      by_cases hpd : env.removeOk pd = true <;>
        simp only [hmv, hbd, hpd, Bool.not_eq_true] at * <;>
          simp only [hmv, hbd, hpd, if_true, if_false,
            Bool.false_eq_true, Bool.true_eq_false, ite_true, ite_false] <;>
            first
              | exact Or.inl rfl
              | exact Or.inr rfl
              | simp

theorem packagePhase_mainTree_some (env : Env) (pkg : PkgFile)
    (bd od pd op : String) (st : St) (sps : List PkgFileSubPackage)
    (hsub : pkg.subpackage = some sps) :
    (packagePhase env pkg bd od pd op st).st.mainTree =
      (processSubpackages env od pd op st sps).st.mainTree ∨
    (packagePhase env pkg bd od pd op st).st.mainTree =
      some (processSubpackages env od pd op st sps).st.outFiles := by
  cases hp : (processSubpackages env od pd op st sps).panicMsg with
  | some m =>
    rw [packagePhase_panicProp env pkg bd od pd op st sps m hsub hp]
    exact Or.inl rfl
  | none =>
    simp only [packagePhase, hsub, hp]
    by_cases hmv : env.mvOk = true <;>
      by_cases hbd : env.removeOk bd = true <;>
        by_cases hpd : env.removeOk pd = true <;>
          simp only [hmv, hbd, hpd, Bool.not_eq_true] at * <;>
            simp only [hmv, hbd, hpd, if_true, if_false,
              Bool.false_eq_true, Bool.true_eq_false, ite_true, ite_false] <;>
              first
                | exact Or.inl rfl
                | exact Or.inr rfl
                | simp

theorem processSubpackage_copyFail (env : Env) (od pd op : String) (st : St)
    (sp : PkgFileSubPackage)
    (htar : env.tarOk (tarballName op sp) = true)
    (hcopy : env.copyOk (tarballCopyDest op (tarballName op sp)) = false) :
    (processSubpackage env od pd op st sp).panicMsg =
      some "Unable to copy tarball to output directory" ∧
    (∃ es, (processSubpackage env od pd op st sp).st.archives =
      st.archives ++ [(tarballName op sp, es)]) ∧
    (processSubpackage env od pd op st sp).st.copies = st.copies := by
  have hframe := selFold_selFrame env od (pd ++ "/" ++ sp.name) sp.files (st, [])
  unfold processSubpackage
  rw [if_neg (by simp [htar]), if_neg (by simp [hcopy])]
  refine ⟨rfl, ⟨"/package.toml" ::
    (sp.files.foldl (processSelector env od (pd ++ "/" ++ sp.name)) (st, [])).2, ?_⟩, ?_⟩
  · show (sp.files.foldl (processSelector env od (pd ++ "/" ++ sp.name)) (st, [])).1.archives
        ++ _ = _
    rw [hframe.1]
  · exact hframe.2.1

theorem packagePhase_c5 (env : Env) (pkg : PkgFile)
    (bd od pd op : String) (st : St)
    (ha : st.archives = []) (hm : st.mainTree = none) :
    (∀ es ∈ (packagePhase env pkg bd od pd op st).st.archives,
      "/package.toml" ∈ es.2) ∧
    (∀ main, (packagePhase env pkg bd od pd op st).st.mainTree = some main →
      ∀ x ∈ main, x ∈ st.outFiles) := by
  cases hsub : pkg.subpackage with
  | none =>
    constructor
    · intro es hes
      rw [packagePhase_archives_none env pkg bd od pd op st hsub, ha] at hes
      exact absurd hes (List.not_mem_nil es)
    · intro main hmain x hx
      rcases packagePhase_mainTree_none env pkg bd od pd op st hsub with h | h
      · rw [h, hm] at hmain
        exact absurd hmain (by simp)
      · rw [h] at hmain
        injection hmain with he
        rw [he]
        exact hx
  | some sps =>
    constructor
    · intro es hes
      rw [packagePhase_archives_some env pkg bd od pd op st sps hsub] at hes
      obtain ⟨Δ, hΔ, hman⟩ := processSubpackages_manifest env od pd op sps st
      rw [hΔ, ha] at hes
      exact hman es (by simpa using hes)
    · intro main hmain x hx
      rcases packagePhase_mainTree_some env pkg bd od pd op st sps hsub with h | h
      · rw [h, (processSubpackages_subFrame env od pd op sps st).1, hm] at hmain
        exact absurd hmain (by simp)
      · rw [h] at hmain
        injection hmain with he
        rw [← he] at hx
        exact processSubpackages_outSubset env od pd op sps st hx

theorem processSelector_dirs (env : Env) (od sd : String)
    (acc : St × List String) (sel d : String) (h : d ∈ acc.1.dirsCreated) :
    d ∈ (processSelector env od sd acc sel).1.dirsCreated := by
  unfold processSelector
  split
  · exact h
  · exact foldlInv (moveFile env od sd)
      (fun b => d ∈ b.1.dirsCreated)
      (fun b a hb => moveFile_dirs env od sd b a d hb) _
      ({ acc.1 with shCmds := acc.1.shCmds ++ [shExpandCmd od sel] }, acc.2) h

theorem selFold_dirs (env : Env) (od sd : String) (sels : List String)
    (acc : St × List String) (d : String) (h : d ∈ acc.1.dirsCreated) :
    d ∈ (sels.foldl (processSelector env od sd) acc).1.dirsCreated :=
  foldlInv (processSelector env od sd) (fun b => d ∈ b.1.dirsCreated)
    (fun b a hb => processSelector_dirs env od sd b a d hb) sels acc h

theorem processSubpackage_dirs (env : Env) (od pd op : String) (st : St)
    (sp : PkgFileSubPackage) (d : String) (h : d ∈ st.dirsCreated) :
    d ∈ (processSubpackage env od pd op st sp).st.dirsCreated := by
  have hf : d ∈ (sp.files.foldl (processSelector env od (pd ++ "/" ++ sp.name))
      (st, [])).1.dirsCreated :=
    selFold_dirs env od (pd ++ "/" ++ sp.name) sp.files (st, []) d h
  simp only [processSubpackage]
  split
  · exact hf
  · split
    · exact hf
    · exact hf

theorem processSubpackages_dirs (env : Env) (od pd op : String) (d : String) :
    ∀ (sps : List PkgFileSubPackage) (st : St), d ∈ st.dirsCreated →
      d ∈ (processSubpackages env od pd op st sps).st.dirsCreated := by
  intro sps
  induction sps with
  | nil => intro st h; exact h
  | cons sp sps ih =>
    intro st h
    rw [processSubpackages_cons]
    cases hp : (processSubpackage env od pd op st sp).panicMsg with
    | none => exact ih _ (processSubpackage_dirs env od pd op st sp d h)
    | some m => exact processSubpackage_dirs env od pd op st sp d h

theorem processSubpackage_nodup (env : Env) (od pd op : String) (st : St)
    (sp : PkgFileSubPackage) (h : st.outFiles.Nodup) :
    (processSubpackage env od pd op st sp).st.outFiles.Nodup := by
  have hf := selFold_nodup env od (pd ++ "/" ++ sp.name) sp.files (st, []) h
  simp only [processSubpackage]
  split
  · exact hf
  · split
    · exact hf
    · exact hf

theorem moveFold_W (env : Env) (od sd : String) (built : List String)
    (rel : String)
    (hrep : ∀ r ∈ built, rustReplace (od ++ r) od "" = r) :
    ∀ (m : List String) (acc : St × List String),
      rel ∉ m → (∀ x ∈ m, x ∈ built) →
      rel ∈ acc.1.outFiles → rel ∉ acc.2 →
      rel ∈ (m.foldl (moveFile env od sd) acc).1.outFiles ∧
        rel ∉ (m.foldl (moveFile env od sd) acc).2 := by
  intro m
  induction m with
  | nil => intro acc _ _ h1 h2; exact ⟨h1, h2⟩
  | cons r' m ih =>
    intro acc hnm hmb h1 h2
    have hne : rel ≠ r' := fun he => hnm (he ▸ List.mem_cons_self r' m)
    have hrepr' : rustReplace (od ++ r') od "" = r' :=
      hrep r' (hmb r' (List.mem_cons_self r' m))
    have h1' : rel ∈ (moveFile env od sd acc r').1.outFiles := by
      unfold moveFile
      split
      · show rel ∈ acc.1.outFiles.erase (rustReplace (od ++ r') od "")
        rw [hrepr']
        exact (List.mem_erase_of_ne hne).mpr h1
      · exact h1
    have h2' : rel ∉ (moveFile env od sd acc r').2 := by
      unfold moveFile
      split
      · intro hm
        rcases List.mem_append.mp hm with hm | hm
        · exact h2 hm
        · rw [hrepr'] at hm
          exact hne (List.mem_singleton.mp hm)
      · exact h2
    exact ih (moveFile env od sd acc r')
      (fun hm => hnm (List.mem_cons_of_mem r' hm))
      (fun x hx => hmb x (List.mem_cons_of_mem r' hx)) h1' h2'

theorem processSelector_W (env : Env) (od sd : String) (built : List String)
    (rel sel : String) (acc : St × List String)
    (hrep : ∀ r ∈ built, rustReplace (od ++ r) od "" = r)
    (hglob : env.glob (od ++ sel) (od ++ rel) = false)
    (hsubb : ∀ x ∈ acc.1.outFiles, x ∈ built)
    (h1 : rel ∈ acc.1.outFiles) (h2 : rel ∉ acc.2) :
    rel ∈ (processSelector env od sd acc sel).1.outFiles ∧
      rel ∉ (processSelector env od sd acc sel).2 := by
  unfold processSelector
  split
  · exact ⟨h1, h2⟩
  · refine moveFold_W env od sd built rel hrep _ _ ?_ ?_ h1 h2
    · intro hm
      have := (List.mem_filter.mp hm).2
      rw [hglob] at this
      exact absurd this (by simp)
    · exact fun x hx => hsubb x (List.mem_of_mem_filter hx)

theorem selFold_W (env : Env) (od sd : String) (built : List String)
    (rel : String)
    (hrep : ∀ r ∈ built, rustReplace (od ++ r) od "" = r) :
    ∀ (sels : List String) (acc : St × List String),
      (∀ sel ∈ sels, env.glob (od ++ sel) (od ++ rel) = false) →
      (∀ x ∈ acc.1.outFiles, x ∈ built) →
      rel ∈ acc.1.outFiles → rel ∉ acc.2 →
      rel ∈ (sels.foldl (processSelector env od sd) acc).1.outFiles ∧
        rel ∉ (sels.foldl (processSelector env od sd) acc).2 := by
  intro sels
  induction sels with
  | nil => intro acc _ _ h1 h2; exact ⟨h1, h2⟩
  | cons sel sels ih =>
    intro acc hzero hsubb h1 h2
    have hstep := processSelector_W env od sd built rel sel acc hrep
      (hzero sel (List.mem_cons_self sel sels)) hsubb h1 h2
    exact ih (processSelector env od sd acc sel)
      (fun s hs => hzero s (List.mem_cons_of_mem sel hs))
      (fun x hx => hsubb x (processSelector_subset env od sd acc sel hx))
      hstep.1 hstep.2

theorem processSubpackage_noclaim (env : Env) (od pd op : String) (st : St)
    (sp : PkgFileSubPackage) (built : List String) (rel : String)
    (htar : ∀ t, env.tarOk t = true) (hcopy : ∀ d, env.copyOk d = true)
    (hman : rel ≠ "/package.toml")
    (hrep : ∀ r ∈ built, rustReplace (od ++ r) od "" = r)
    (hzero : ∀ sel ∈ sp.files, env.glob (od ++ sel) (od ++ rel) = false)
    (hsubb : ∀ x ∈ st.outFiles, x ∈ built) (hnd : st.outFiles.Nodup)
    (hrel : rel ∈ st.outFiles) :
    (processSubpackage env od pd op st sp).panicMsg = none ∧
    rel ∈ (processSubpackage env od pd op st sp).st.outFiles ∧
    (processSubpackage env od pd op st sp).st.outFiles.Nodup ∧
    (∀ x ∈ (processSubpackage env od pd op st sp).st.outFiles, x ∈ built) ∧
    (∃ es, (processSubpackage env od pd op st sp).st.archives = st.archives ++ [es] ∧
      rel ∉ es.2) := by
  have hW := selFold_W env od (pd ++ "/" ++ sp.name) built rel hrep sp.files (st, [])
    hzero hsubb hrel (List.not_mem_nil rel)
  have hframe := selFold_selFrame env od (pd ++ "/" ++ sp.name) sp.files (st, [])
  have hnd2 := selFold_nodup env od (pd ++ "/" ++ sp.name) sp.files (st, []) hnd
  have hsubset := selFold_subset env od (pd ++ "/" ++ sp.name) sp.files (st, [])
  unfold processSubpackage
  rw [if_neg (by simp [htar]), if_pos (by simpa using hcopy _)]
  refine ⟨rfl, hW.1, hnd2, fun x hx => hsubb x (hsubset hx),
    ⟨(tarballName op sp,
      "/package.toml" ::
        (sp.files.foldl (processSelector env od (pd ++ "/" ++ sp.name)) (st, [])).2),
      ?_, ?_⟩⟩
  · show (sp.files.foldl (processSelector env od (pd ++ "/" ++ sp.name)) (st, [])).1.archives
        ++ _ = _
    rw [hframe.1]
  · intro hm
    rcases List.mem_cons.mp hm with hm | hm
    · exact hman hm
    · exact hW.2 hm

theorem processSubpackages_noclaim (env : Env) (od pd op : String)
    (built : List String) (rel : String)
    (htar : ∀ t, env.tarOk t = true) (hcopy : ∀ d, env.copyOk d = true)
    (hman : rel ≠ "/package.toml")
    (hrep : ∀ r ∈ built, rustReplace (od ++ r) od "" = r) :
    ∀ (pre : List PkgFileSubPackage) (st : St),
      (∀ sp0 ∈ pre, ∀ sel ∈ sp0.files, env.glob (od ++ sel) (od ++ rel) = false) →
      (∀ x ∈ st.outFiles, x ∈ built) → st.outFiles.Nodup → rel ∈ st.outFiles →
      rel ∈ (processSubpackages env od pd op st pre).st.outFiles ∧
      (processSubpackages env od pd op st pre).st.outFiles.Nodup ∧
      (∀ x ∈ (processSubpackages env od pd op st pre).st.outFiles, x ∈ built) ∧
      (∃ Δ, (processSubpackages env od pd op st pre).st.archives = st.archives ++ Δ ∧
        ∀ es ∈ Δ, rel ∉ es.2) := by
  intro pre
  induction pre with
  | nil =>
    intro st _ hsubb hnd hrel
    exact ⟨hrel, hnd, hsubb, ⟨[], by show st.archives = st.archives ++ []; simp, by simp⟩⟩
  | cons sp0 pre ih =>
    intro st hpre hsubb hnd hrel
    obtain ⟨hp1, hrel1, hnd1, hsubb1, es1, he1, hn1⟩ :=
      processSubpackage_noclaim env od pd op st sp0 built rel htar hcopy hman hrep
        (fun sel hs => hpre sp0 (List.mem_cons_self sp0 pre) sel hs) hsubb hnd hrel
    rw [processSubpackages_cons, hp1]
    obtain ⟨hrel2, hnd2, hsubb2, Δ2, he2, hn2⟩ :=
      ih (processSubpackage env od pd op st sp0).st
        (fun s hs sel hsel => hpre s (List.mem_cons_of_mem sp0 hs) sel hsel)
        hsubb1 hnd1 hrel1
    refine ⟨hrel2, hnd2, hsubb2, ⟨[es1] ++ Δ2, ?_, ?_⟩⟩
    · show (processSubpackages env od pd op (processSubpackage env od pd op st sp0).st
        pre).st.archives = _
      rw [he2, he1, List.append_assoc]
    · intro es hes
      rcases List.mem_append.mp hes with h | h
      · rcases List.mem_singleton.mp h with rfl
        exact hn1
      · exact hn2 es h

theorem packagePhase_c2 (env : Env) (pkg : PkgFile)
    (bd od pd op : String) (st : St) (built : List String)
    (pre : List PkgFileSubPackage) (sp1 : PkgFileSubPackage)
    (rest : List PkgFileSubPackage) (rel : String)
    (hsub : pkg.subpackage = some (pre ++ sp1 :: rest))
    (hsh : ∀ p, env.shStatus p = 0) (hmv : env.mvOk = true)
    (htar : ∀ t, env.tarOk t = true) (hcopy : ∀ d, env.copyOk d = true)
    (hrm : ∀ p, env.removeOk p = true)
    (hrep : ∀ r ∈ built, rustReplace (od ++ r) od "" = r)
    (hstnd : st.outFiles.Nodup) (hstsub : ∀ x ∈ st.outFiles, x ∈ built)
    (hstarch : st.archives = [])
    (hrel : rel ∈ st.outFiles)
    (hpre : ∀ sp0 ∈ pre, ∀ sel ∈ sp0.files, env.glob (od ++ sel) (od ++ rel) = false)
    (hmatch : ∃ sel ∈ sp1.files, env.glob (od ++ sel) (od ++ rel) = true)
    (hman : rel ≠ "/package.toml") :
    (packagePhase env pkg bd od pd op st).panicMsg = none ∧
    (∃ tree Δ0 Δ1,
      (packagePhase env pkg bd od pd op st).st.archives =
        Δ0 ++ (tarballName op sp1, "/package.toml" :: tree) :: Δ1 ∧
      rel ∈ tree ∧ (∀ es ∈ Δ0, rel ∉ es.2) ∧ (∀ es ∈ Δ1, rel ∉ es.2)) ∧
    (∀ main, (packagePhase env pkg bd od pd op st).st.mainTree = some main →
      rel ∉ main) ∧
    pd ++ "/" ++ sp1.name ++ "/" ++ rsplitn2Last rel ∈
      (packagePhase env pkg bd od pd op st).st.dirsCreated := by
  obtain ⟨hrelA, hndA, hsubA, ΔA, harchA, hΔA⟩ :=
    processSubpackages_noclaim env od pd op built rel htar hcopy hman hrep pre st
      hpre hstsub hstnd hrel
  obtain ⟨hpB, ⟨tree, harchB, htreeB⟩, houtB, hndB, hsubB, hframeB, hdirB⟩ :=
    processSubpackage_first env od pd op
      (processSubpackages env od pd op st pre).st sp1 built rel hsh hmv
      (htar _) (hcopy _) hrep hndA hsubA hrelA hmatch
  obtain ⟨hpC, houtC, ΔC, harchC, hΔC⟩ :=
    processSubpackages_Q env od pd op rel htar hcopy hman rest
      (processSubpackage env od pd op (processSubpackages env od pd op st pre).st sp1).st
      houtB
  have hdirC := processSubpackages_dirs env od pd op
    (pd ++ "/" ++ sp1.name ++ "/" ++ rsplitn2Last rel) rest
    (processSubpackage env od pd op (processSubpackages env od pd op st pre).st sp1).st
    hdirB
  have hsplit := processSubpackages_split env od pd op htar hcopy pre (sp1 :: rest) st
  have hconsB : processSubpackages env od pd op
      (processSubpackages env od pd op st pre).st (sp1 :: rest) =
      processSubpackages env od pd op
        (processSubpackage env od pd op
          (processSubpackages env od pd op st pre).st sp1).st rest := by
    rw [processSubpackages_cons, hpB]
  have hall : processSubpackages env od pd op st (pre ++ sp1 :: rest) =
      processSubpackages env od pd op
        (processSubpackage env od pd op
          (processSubpackages env od pd op st pre).st sp1).st rest := by
    rw [hsplit, hconsB]
  have hnone : (processSubpackages env od pd op st (pre ++ sp1 :: rest)).panicMsg
      = none := by
    rw [hall]
    exact hpC
  rw [packagePhase_ok_some env pkg bd od pd op st (pre ++ sp1 :: rest) hsub hnone
    hmv (hrm bd) (hrm pd)]
  refine ⟨rfl, ⟨tree, ΔA, ΔC, ?_, htreeB, hΔA, hΔC⟩, ?_, ?_⟩
  · show (processSubpackages env od pd op st (pre ++ sp1 :: rest)).st.archives = _
    rw [hall, harchC, harchB, harchA, hstarch]
    simp
  · intro main hmain
    injection hmain with he
    rw [← he, hall]
    exact houtC
  · show _ ∈ (processSubpackages env od pd op st (pre ++ sp1 :: rest)).st.dirsCreated
    rw [hall]
    exact hdirC
theorem c1_no_archive_emitted :
    (mainRun cenvOk cpkgNoSub "/b" "/o" "/p" "/out" []).panicMsg = none ∧
    (mainRun cenvOk cpkgNoSub "/b" "/o" "/p" "/out" []).st.archives = [] ∧
    (mainRun cenvOk cpkgNoSub "/b" "/o" "/p" "/out" []).st.copies = [] ∧
    (mainRun cenvOk cpkgNoSub "/b" "/o" "/p" "/out" []).st.mainTree = some [] ∧
    (mainRun cenvOk cpkgNoSub "/b" "/o" "/p" "/out" []).st.packageDirRemoved = true := by
  decide

/-- C3: a build script exiting 0 proceeds to packaging, a non-zero exit
panics "Build script failed" before packaging with no archive created or
copied, and absence of a build script is not an error (the pipeline goes
straight to packaging). -/
theorem c3_build_gate (env : Env) (pkg : PkgFile)
    (bd od pd op : String) (built : List String) :
    (∀ b, pkg.build = some b → env.buildExit ≠ 0 →
      (mainRun env pkg bd od pd op built).panicMsg = some "Build script failed" ∧
      (mainRun env pkg bd od pd op built).st.archives = [] ∧
      (mainRun env pkg bd od pd op built).st.copies = [] ∧
      (mainRun env pkg bd od pd op built).st.mainTree = none) ∧
    (∀ b, pkg.build = some b → env.buildExit = 0 →
      mainRun env pkg bd od pd op built =
        packagePhase env pkg bd od pd op
          { initSt built with execs := [buildInvocation b] }) ∧
    (pkg.build = none →
      mainRun env pkg bd od pd op built =
        packagePhase env pkg bd od pd op (initSt built)) := by
  refine ⟨?_, ?_, ?_⟩
  · intro b hb hexit
    rw [mainRun_buildFail env pkg bd od pd op built b hb hexit]
    exact ⟨rfl, rfl, rfl, rfl⟩
  · intro b hb hexit
    exact mainRun_buildOk env pkg bd od pd op built b hb hexit
  · intro hb
    exact mainRun_noBuild env pkg bd od pd op built hb

/-- C3 witness: at the concrete descriptor `cpkgBuild` with a failing
build script, the invocation aborts with "Build script failed" and no
archive exists. -/
theorem c3_build_gate_witness :
    cpkgBuild.build = some { script := "echo hi > $OUT/hi.txt" } ∧
    cenvBuildFail.buildExit ≠ 0 ∧
    ((mainRun cenvBuildFail cpkgBuild "/b" "/o" "/p" "/out" []).panicMsg =
        some "Build script failed" ∧
      (mainRun cenvBuildFail cpkgBuild "/b" "/o" "/p" "/out" []).st.archives = [] ∧
      (mainRun cenvBuildFail cpkgBuild "/b" "/o" "/p" "/out" []).st.copies = [] ∧
      (mainRun cenvBuildFail cpkgBuild "/b" "/o" "/p" "/out" []).st.mainTree = none) :=
  ⟨rfl, by decide,
    (c3_build_gate cenvBuildFail cpkgBuild "/b" "/o" "/p" "/out" []).1
      { script := "echo hi > $OUT/hi.txt" } rfl (by decide)⟩

/-- C4 counterexample: the claim says the cleanup stage removes the build
tree on EVERY execution path, including a fatal build-script failure.  At
the concrete descriptor `cpkgBuild` with a failing build script the
invocation panics before any cleanup and the build tree is NOT removed
(main.rs:94 panics; the `fs::remove_dir_all` at main.rs:201 never runs). -/
theorem c4_counterexample :
    (mainRun cenvBuildFail cpkgBuild "/b" "/o" "/p" "/out" []).panicMsg =
      some "Build script failed" ∧
    (mainRun cenvBuildFail cpkgBuild "/b" "/o" "/p" "/out" []).st.buildDirRemoved
      = false := by
  decide

/-- C4 (amended): the build and package directories are removed only on
the path where packaging completed without a fatal error; a fatal
build-script failure aborts before cleanup and the build tree leaks;
and a failure of the build-tree removal itself panics, turning an
otherwise successful packaging run into a failed invocation. -/
theorem c4_amended (env : Env) (pkg : PkgFile)
    (bd od pd op : String) (built : List String) :
    (∀ b, pkg.build = some b → env.buildExit ≠ 0 →
      (mainRun env pkg bd od pd op built).st.buildDirRemoved = false ∧
      (mainRun env pkg bd od pd op built).st.packageDirRemoved = false ∧
      (mainRun env pkg bd od pd op built).panicMsg = some "Build script failed") ∧
    ((∀ t, env.tarOk t = true) → (∀ d, env.copyOk d = true) →
      env.buildExit = 0 → env.removeOk bd = false →
      (mainRun env pkg bd od pd op built).panicMsg =
        some "Unable to remove build directory" ∧
      (mainRun env pkg bd od pd op built).st.buildDirRemoved = false) ∧
    ((∀ t, env.tarOk t = true) → (∀ d, env.copyOk d = true) →
      env.mvOk = true → (∀ p, env.removeOk p = true) → env.buildExit = 0 →
      (mainRun env pkg bd od pd op built).panicMsg = none ∧
      (mainRun env pkg bd od pd op built).st.buildDirRemoved = true ∧
      (mainRun env pkg bd od pd op built).st.packageDirRemoved = true) := by
  refine ⟨?_, ?_, ?_⟩
  · intro b hb hexit
    rw [mainRun_buildFail env pkg bd od pd op built b hb hexit]
    exact ⟨rfl, rfl, rfl⟩
  · intro htar hcopy hexit hbd
    cases hb : pkg.build with
    | none =>
      rw [mainRun_noBuild env pkg bd od pd op built hb]
      exact packagePhase_rmBuildFail env pkg bd od pd op (initSt built) htar hcopy hbd
    | some b =>
      rw [mainRun_buildOk env pkg bd od pd op built b hb hexit]
      exact packagePhase_rmBuildFail env pkg bd od pd op
        { initSt built with execs := [buildInvocation b] } htar hcopy hbd
  · intro htar hcopy hmv hrm hexit
    have key : ∀ st : St,
        (packagePhase env pkg bd od pd op st).panicMsg = none ∧
        (packagePhase env pkg bd od pd op st).st.buildDirRemoved = true ∧
        (packagePhase env pkg bd od pd op st).st.packageDirRemoved = true := by
      intro st
      cases hsub : pkg.subpackage with
      | none =>
        rw [packagePhase_ok_none env pkg bd od pd op st hsub hmv (hrm bd) (hrm pd)]
        exact ⟨rfl, rfl, rfl⟩
      | some sps =>
        rw [packagePhase_ok_some env pkg bd od pd op st sps hsub
          (processSubpackages_none env od pd op htar hcopy sps st) hmv (hrm bd) (hrm pd)]
        exact ⟨rfl, rfl, rfl⟩
    cases hb : pkg.build with
    | none =>
      rw [mainRun_noBuild env pkg bd od pd op built hb]
      exact key (initSt built)
    | some b =>
      rw [mainRun_buildOk env pkg bd od pd op built b hb hexit]
      exact key { initSt built with execs := [buildInvocation b] }

/-- C4 amended witness: on the concrete all-succeeding run the cleanup
removals happen, and with `removeOk` denying the build-directory removal
the otherwise successful run panics. -/
theorem c4_amended_witness :
    ((mainRun cenvOk cpkgNoSub "/b" "/o" "/p" "/out" []).panicMsg = none ∧
      (mainRun cenvOk cpkgNoSub "/b" "/o" "/p" "/out" []).st.buildDirRemoved = true ∧
      (mainRun cenvOk cpkgNoSub "/b" "/o" "/p" "/out" []).st.packageDirRemoved = true) :=
  (c4_amended cenvOk cpkgNoSub "/b" "/o" "/p" "/out" []).2.2
    (fun _ => rfl) (fun _ => rfl) rfl (fun _ => rfl) rfl

/-- C5 counterexample: the claim says every emitted archive — the main
package included — contains the manifest, written into the corresponding
directory.  At the concrete descriptor `cpkgOneSub` (one subpackage, one
artifact `/x.bin` in the output tree) the run completes, the only archive
emitted is the subpackage one, no main-package archive exists, and the
descriptor is never written into the output tree (the main tree is still
exactly `[/x.bin]`, without `/package.toml`; main.rs never copies the
manifest into `out_dir`). -/
theorem c5_counterexample :
    (mainRun cenvOk cpkgOneSub "/b" "/o" "/p" "/out" ["/x.bin"]).panicMsg = none ∧
    (mainRun cenvOk cpkgOneSub "/b" "/o" "/p" "/out" ["/x.bin"]).st.archives =
      [("/out/dev.tar.gz", ["/package.toml"])] ∧
    (mainRun cenvOk cpkgOneSub "/b" "/o" "/p" "/out" ["/x.bin"]).st.mainTree =
      some ["/x.bin"] := by
  decide

/-- C5 (amended): every archive the pipeline actually emits (all of them
subpackage archives) contains the manifest `/package.toml`, copied into
the subpackage directory before `tar` runs; no main-package archive is
emitted and the packager never adds the manifest (or anything else) to
the output tree — whatever ends up in the main tree was already among the
files the build wrote. -/
theorem c5_amended (env : Env) (pkg : PkgFile)
    (bd od pd op : String) (built : List String) :
    (∀ es ∈ (mainRun env pkg bd od pd op built).st.archives,
      "/package.toml" ∈ es.2) ∧
    (∀ main, (mainRun env pkg bd od pd op built).st.mainTree = some main →
      ∀ x ∈ main, x ∈ built) := by
  cases hb : pkg.build with
  | none =>
    rw [mainRun_noBuild env pkg bd od pd op built hb]
    exact packagePhase_c5 env pkg bd od pd op (initSt built) rfl rfl
  | some b =>
    by_cases hexit : env.buildExit = 0
    · rw [mainRun_buildOk env pkg bd od pd op built b hb hexit]
      exact packagePhase_c5 env pkg bd od pd op
        { initSt built with execs := [buildInvocation b] } rfl rfl
    · rw [mainRun_buildFail env pkg bd od pd op built b hb hexit]
      constructor
      · intro es hes
        exact absurd hes (List.not_mem_nil es)
      · intro main hmain
        exact absurd hmain (by simp [initSt])

/-- C5 amended witness: at the concrete one-subpackage run, the emitted
archive contains the manifest and the main tree holds only files the
build wrote. -/
theorem c5_amended_witness :
    "/package.toml" ∈ [("/out/dev.tar.gz", ["/package.toml"])].head!.2 ∧
    ("/out/dev.tar.gz", ["/package.toml"]) ∈
      (mainRun cenvOk cpkgOneSub "/b" "/o" "/p" "/out" ["/x.bin"]).st.archives ∧
    "/package.toml" ∈
      (("/out/dev.tar.gz", ["/package.toml"]) : String × List String).2 ∧
    (∀ x ∈ ["/x.bin"], x ∈ ["/x.bin"]) :=
  ⟨by decide, by decide,
    (c5_amended cenvOk cpkgOneSub "/b" "/o" "/p" "/out" ["/x.bin"]).1
      ("/out/dev.tar.gz", ["/package.toml"]) (by decide),
    by
      have h2 := (c5_amended cenvOk cpkgOneSub "/b" "/o" "/p" "/out" ["/x.bin"]).2
        ["/x.bin"] (by decide)
      exact h2⟩

/-- C2 counterexample: the claim says every file matched by overlapping
subpackage globs ends up in exactly one of the overlapping subpackages'
archives.  At the concrete run below, the glob `/*` of both `dev` and
`doc` matches the output-tree file `/o/x/o/y.txt` — a path whose
out_dir-relative part contains the out_dir path `/o` again internally.
The prefix stripping of main.rs:141 (`file.replace(&out_dir, "")`)
removes BOTH occurrences, mangling `/x/o/y.txt` into `/x/y.txt`; the
`mv` of the nonexistent source then fails, and its exit status is never
checked (main.rs:149-153), so the file silently stays in `out_dir`: it
ends up in NEITHER subpackage archive (both contain only the manifest)
and remains in the main tree. -/
theorem c2_counterexample :
    cenvGlobB.glob ("/o" ++ "/*") ("/o" ++ "/x/o/y.txt") = true ∧
    (mainRun cenvGlobB cpkgTwoSub "/b" "/o" "/p" "/out" ["/x/o/y.txt"]).panicMsg
      = none ∧
    (mainRun cenvGlobB cpkgTwoSub "/b" "/o" "/p" "/out" ["/x/o/y.txt"]).st.archives =
      [("/out/dev.tar.gz", ["/package.toml"]), ("/out/doc.tar.gz", ["/package.toml"])] ∧
    (mainRun cenvGlobB cpkgTwoSub "/b" "/o" "/p" "/out" ["/x/o/y.txt"]).st.mainTree =
      some ["/x/o/y.txt"] := by
  decide

/-- C2 (amended): partitioning invariant, restricted to output-tree
paths on which the `str::replace` prefix stripping of main.rs:141 is
exact (no path contains the `out_dir` string internally — hypothesis
`hrep`).  For a file `rel` present in the output tree, matched by some
selector of the subpackage `sp1` and by no selector of any
earlier-declared subpackage (`sp1` is the first-declared claimant, at an
arbitrary position in the declaration list), the completed pipeline puts
`rel` into `sp1`'s archive, into no other archive — earlier or later —
and not into the main tree: the file is moved out of `out_dir` by the
`mv` (not copied), so later subpackages' glob expansions, which run
against the then-current `out_dir`, can no longer see it; and its
containing directory `rsplitn2Last rel` is recreated (via
`fs::create_dir_all`, main.rs:144-146) under the subpackage directory
`package_dir` joined with the subpackage name before the move.  (Outside `hrep` the claim
fails, see the counterexample: the mangled path makes the unchecked
`mv` fail silently and the file is claimed by no subpackage at all.)
The remaining hypotheses say all external commands succeed, the output
tree holds no duplicate paths, and `rel` is not the manifest name
itself. -/
theorem c2_partitioning (env : Env) (pkg : PkgFile)
    (bd od pd op : String) (built : List String)
    (pre : List PkgFileSubPackage) (sp1 : PkgFileSubPackage)
    (rest : List PkgFileSubPackage) (rel : String)
    (hsub : pkg.subpackage = some (pre ++ sp1 :: rest))
    (hexit : env.buildExit = 0)
    (hsh : ∀ p, env.shStatus p = 0) (hmv : env.mvOk = true)
    (htar : ∀ t, env.tarOk t = true) (hcopy : ∀ d, env.copyOk d = true)
    (hrm : ∀ p, env.removeOk p = true)
    (hnd : built.Nodup)
    (hrep : ∀ r ∈ built, rustReplace (od ++ r) od "" = r)
    (hrel : rel ∈ built)
    (hpre : ∀ sp0 ∈ pre, ∀ sel ∈ sp0.files, env.glob (od ++ sel) (od ++ rel) = false)
    (hmatch : ∃ sel ∈ sp1.files, env.glob (od ++ sel) (od ++ rel) = true)
    (hman : rel ≠ "/package.toml") :
    (mainRun env pkg bd od pd op built).panicMsg = none ∧
    (∃ tree Δ0 Δ1,
      (mainRun env pkg bd od pd op built).st.archives =
        Δ0 ++ (tarballName op sp1, "/package.toml" :: tree) :: Δ1 ∧
      rel ∈ tree ∧ (∀ es ∈ Δ0, rel ∉ es.2) ∧ (∀ es ∈ Δ1, rel ∉ es.2)) ∧
    (∀ main, (mainRun env pkg bd od pd op built).st.mainTree = some main →
      rel ∉ main) ∧
    pd ++ "/" ++ sp1.name ++ "/" ++ rsplitn2Last rel ∈
      (mainRun env pkg bd od pd op built).st.dirsCreated := by
  cases hb : pkg.build with
  | none =>
    rw [mainRun_noBuild env pkg bd od pd op built hb]
    exact packagePhase_c2 env pkg bd od pd op (initSt built) built pre sp1 rest rel
      hsub hsh hmv htar hcopy hrm hrep hnd (fun x hx => hx) rfl hrel hpre hmatch hman
  | some b =>
    rw [mainRun_buildOk env pkg bd od pd op built b hb hexit]
    exact packagePhase_c2 env pkg bd od pd op
      { initSt built with execs := [buildInvocation b] } built pre sp1 rest rel
      hsub hsh hmv htar hcopy hrm hrep hnd (fun x hx => hx) rfl hrel hpre hmatch hman

/-- C2 witness: concrete overlap with the winner in the middle of the
declaration list — `aux0` (matching nothing) is declared first, then
`dev` and `doc` both select `/*`; the build wrote `/a.txt` and `/b.txt`
and the glob matches `/a.txt`.  The run completes, `/a.txt` is only in
`dev`'s archive, the main tree does not contain it, and the containing
directory was recreated under `/p/dev`. -/
theorem c2_partitioning_witness :
    (∀ sp0 ∈ [(⟨"aux0", "d", ["/none*"]⟩ : PkgFileSubPackage)],
      ∀ sel ∈ sp0.files, cenvGlobA.glob ("/o" ++ sel) ("/o" ++ "/a.txt") = false) ∧
    (∃ sel ∈ (⟨"dev", "d", ["/*"]⟩ : PkgFileSubPackage).files,
      cenvGlobA.glob ("/o" ++ sel) ("/o" ++ "/a.txt") = true) ∧
    ((mainRun cenvGlobA cpkgThreeSub "/b" "/o" "/p" "/out"
        ["/a.txt", "/b.txt"]).panicMsg = none ∧
      (∃ tree Δ0 Δ1,
        (mainRun cenvGlobA cpkgThreeSub "/b" "/o" "/p" "/out"
            ["/a.txt", "/b.txt"]).st.archives =
          Δ0 ++ (tarballName "/out" ⟨"dev", "d", ["/*"]⟩,
            "/package.toml" :: tree) :: Δ1 ∧
        "/a.txt" ∈ tree ∧ (∀ es ∈ Δ0, "/a.txt" ∉ es.2) ∧
        (∀ es ∈ Δ1, "/a.txt" ∉ es.2)) ∧
      (∀ main, (mainRun cenvGlobA cpkgThreeSub "/b" "/o" "/p" "/out"
          ["/a.txt", "/b.txt"]).st.mainTree = some main → "/a.txt" ∉ main) ∧
      "/p" ++ "/" ++ "dev" ++ "/" ++ rsplitn2Last "/a.txt" ∈
        (mainRun cenvGlobA cpkgThreeSub "/b" "/o" "/p" "/out"
          ["/a.txt", "/b.txt"]).st.dirsCreated) :=
  ⟨by decide, by decide,
    c2_partitioning cenvGlobA cpkgThreeSub "/b" "/o" "/p" "/out"
      ["/a.txt", "/b.txt"] [⟨"aux0", "d", ["/none*"]⟩] ⟨"dev", "d", ["/*"]⟩
      [⟨"doc", "d", ["/*"]⟩] "/a.txt"
      rfl rfl (fun _ => rfl) rfl (fun _ => rfl) (fun _ => rfl) (fun _ => rfl)
      (by decide) (by decide) (by decide) (by decide) (by decide) (by decide)⟩

theorem packagePhase_c6 (env : Env) (pkg : PkgFile)
    (bd od pd op : String) (st : St)
    (sp : PkgFileSubPackage) (sps : List PkgFileSubPackage)
    (hsub : pkg.subpackage = some sps) (hsp : sp ∈ sps)
    (hsh : ∀ p, env.shStatus p = 0) (hmv : env.mvOk = true)
    (htar : ∀ t, env.tarOk t = true) (hcopy : ∀ d, env.copyOk d = true)
    (hrm : ∀ p, env.removeOk p = true)
    (hzero : ∀ sel ∈ sp.files, ∀ r0, env.glob (od ++ sel) (od ++ r0) = false) :
    (packagePhase env pkg bd od pd op st).panicMsg = none ∧
    (tarballName op sp, ["/package.toml"]) ∈
      (packagePhase env pkg bd od pd op st).st.archives ∧
    (∀ sel ∈ sp.files, shExpandCmd od sel ∈
      (packagePhase env pkg bd od pd op st).st.shCmds) := by
  obtain ⟨pre, post, hsps⟩ := List.append_of_mem hsp
  subst hsps
  have hnone := processSubpackages_none env od pd op htar hcopy (pre ++ sp :: post) st
  rw [packagePhase_ok_some env pkg bd od pd op st (pre ++ sp :: post) hsub hnone
    hmv (hrm bd) (hrm pd)]
  have hsplit := processSubpackages_split env od pd op htar hcopy pre (sp :: post) st
  have hstep := processSubpackage_zeroMatch env od pd op
    (processSubpackages env od pd op st pre).st sp hsh hzero (htar _) (hcopy _)
  have hc : processSubpackages env od pd op
      (processSubpackages env od pd op st pre).st (sp :: post) =
      processSubpackages env od pd op
        { (processSubpackages env od pd op st pre).st with
            shCmds := (processSubpackages env od pd op st pre).st.shCmds
              ++ sp.files.map (shExpandCmd od),
            archives := (processSubpackages env od pd op st pre).st.archives
              ++ [(tarballName op sp, ["/package.toml"])],
            copies := (processSubpackages env od pd op st pre).st.copies
              ++ [(tarballName op sp, tarballCopyDest op (tarballName op sp))] }
        post := by
    rw [processSubpackages_cons, hstep]
  refine ⟨rfl, ?_, ?_⟩
  · show (tarballName op sp, ["/package.toml"]) ∈
      (processSubpackages env od pd op st (pre ++ sp :: post)).st.archives
    rw [hsplit, hc]
    obtain ⟨Δ, hΔ⟩ := processSubpackages_archivesPrefix env od pd op post _
    rw [hΔ]
    refine List.mem_append.mpr (Or.inl ?_)
    show _ ∈ (processSubpackages env od pd op st pre).st.archives
      ++ [(tarballName op sp, ["/package.toml"])]
    exact List.mem_append.mpr (Or.inr (List.mem_singleton.mpr rfl))
  · intro sel hsel
    show shExpandCmd od sel ∈
      (processSubpackages env od pd op st (pre ++ sp :: post)).st.shCmds
    rw [hsplit, hc]
    obtain ⟨t2, ht2⟩ := processSubpackages_shCmdsPrefix env od pd op post _
    rw [ht2]
    refine List.mem_append.mpr (Or.inl ?_)
    show _ ∈ (processSubpackages env od pd op st pre).st.shCmds
      ++ sp.files.map (shExpandCmd od)
    exact List.mem_append.mpr (Or.inr (List.mem_map_of_mem _ hsel))

/-- C6: a subpackage all of whose `files` selectors match zero files is
not an error: the whole invocation still completes, the subpackage's
archive is created containing only the manifest `/package.toml`, and for
each of its selectors the shell command actually issued is
`shopt -s nullglob; shopt -s dotglob; echo <out_dir><selector>` —
expansion against the output tree, with dotfile matching enabled and
empty-match-as-empty (`nullglob`) semantics. -/
theorem c6_empty_glob (env : Env) (pkg : PkgFile)
    (bd od pd op : String) (built : List String)
    (sp : PkgFileSubPackage) (sps : List PkgFileSubPackage)
    (hsub : pkg.subpackage = some sps) (hsp : sp ∈ sps)
    (hexit : env.buildExit = 0)
    (hsh : ∀ p, env.shStatus p = 0) (hmv : env.mvOk = true)
    (htar : ∀ t, env.tarOk t = true) (hcopy : ∀ d, env.copyOk d = true)
    (hrm : ∀ p, env.removeOk p = true)
    (hzero : ∀ sel ∈ sp.files, ∀ r0, env.glob (od ++ sel) (od ++ r0) = false) :
    (mainRun env pkg bd od pd op built).panicMsg = none ∧
    (tarballName op sp, ["/package.toml"]) ∈
      (mainRun env pkg bd od pd op built).st.archives ∧
    (∀ sel ∈ sp.files, shExpandCmd od sel ∈
      (mainRun env pkg bd od pd op built).st.shCmds) := by
  cases hb : pkg.build with
  | none =>
    rw [mainRun_noBuild env pkg bd od pd op built hb]
    exact packagePhase_c6 env pkg bd od pd op (initSt built) sp sps hsub hsp
      hsh hmv htar hcopy hrm hzero
  | some b =>
    rw [mainRun_buildOk env pkg bd od pd op built b hb hexit]
    exact packagePhase_c6 env pkg bd od pd op
      { initSt built with execs := [buildInvocation b] } sp sps hsub hsp
      hsh hmv htar hcopy hrm hzero

/-- C6 witness: at the concrete two-subpackage descriptor under an
environment whose glob matches nothing, the `dev` subpackage's archive
holding only the manifest is emitted and the issued shell command is the
nullglob/dotglob `echo` over the output tree. -/
theorem c6_empty_glob_witness :
    (⟨"dev", "d", ["/*"]⟩ : PkgFileSubPackage) ∈
      [(⟨"dev", "d", ["/*"]⟩ : PkgFileSubPackage), ⟨"doc", "d", ["/*"]⟩] ∧
    ((mainRun cenvOk cpkgTwoSub "/b" "/o" "/p" "/out" ["/x.bin"]).panicMsg = none ∧
      (tarballName "/out" ⟨"dev", "d", ["/*"]⟩, ["/package.toml"]) ∈
        (mainRun cenvOk cpkgTwoSub "/b" "/o" "/p" "/out" ["/x.bin"]).st.archives ∧
      (∀ sel ∈ (⟨"dev", "d", ["/*"]⟩ : PkgFileSubPackage).files,
        shExpandCmd "/o" sel ∈
          (mainRun cenvOk cpkgTwoSub "/b" "/o" "/p" "/out" ["/x.bin"]).st.shCmds)) :=
  ⟨by decide,
    c6_empty_glob cenvOk cpkgTwoSub "/b" "/o" "/p" "/out" ["/x.bin"]
      ⟨"dev", "d", ["/*"]⟩ [⟨"dev", "d", ["/*"]⟩, ⟨"doc", "d", ["/*"]⟩]
      rfl (by decide) rfl (fun _ => rfl) rfl (fun _ => rfl) (fun _ => rfl)
      (fun _ => rfl) (fun _ _ _ => rfl)⟩

theorem fetchSourceActions_noDelete (bd : String) (src : PkgFileSource) :
    ∀ e ∈ fetchSourceActions bd src, isDelete e = false := by
  intro e he
  unfold fetchSourceActions fetchGitActions fetchTarballActions fetchZipActions at he
  rcases List.mem_append.mp he with h | h
  · rcases List.mem_append.mp h with h | h
    · split at h
      · rcases List.mem_cons.mp h with rfl | h
        · rfl
        · cases hc : src.git_commit with
          | none => rw [hc] at h; exact absurd h (List.not_mem_nil e)
          | some c =>
            rw [hc] at h
            rcases List.mem_singleton.mp h with rfl
            rfl
      · exact absurd h (List.not_mem_nil e)
    · split at h
      · rcases List.mem_cons.mp h with rfl | h
        · rfl
        · rcases List.mem_singleton.mp h with rfl
          rfl
      · exact absurd h (List.not_mem_nil e)
  · split at h
    · rcases List.mem_cons.mp h with rfl | h
      · rfl
      · rcases List.mem_singleton.mp h with rfl
        rfl
    · exact absurd h (List.not_mem_nil e)

theorem fetchSource_noDelete (env : Env) (bd : String) (src : PkgFileSource) :
    ∀ e ∈ fetchSource env bd src, isDelete e = false := by
  intro e he
  by_cases hlog : isLogErr e = true
  · cases e <;> simp_all [isLogErr, isDelete]
  · have hmem : e ∈ (fetchSource env bd src).filter (fun e => !isLogErr e) :=
      List.mem_filter.mpr ⟨he, by simp [hlog]⟩
    rw [filter_fetchSource] at hmem
    exact fetchSourceActions_noDelete bd src e hmem

/-- C7 counterexample: the claim says that after extraction the fetcher
deletes the temporary download.  At the concrete tarball source
`csrcTarGz` the fetch trace is exactly download-then-extract — the
deletion of `/b.tmpdownload` the claim requires is not among the events
(main.rs:294-332 contain no removal of the `.tmpdownload` file). -/
theorem c7_counterexample :
    fetchSource cenvOk "/b" csrcTarGz =
      [FetchEvent.download "https://x/a.tar.gz" "/b.tmpdownload",
       FetchEvent.extractTar "/b.tmpdownload" "/b"] ∧
    FetchEvent.deleteFile "/b.tmpdownload" ∉ fetchSource cenvOk "/b" csrcTarGz := by
  decide

/-- C7 (amended): for every source whose URL ends with a tar-family
suffix (`.tar.gz`/`.tgz`/`.tar.bz2`/`.tar.xz`) or `.zip`, the fetcher
downloads the file to the temporary sibling path
`destination ++ ".tmpdownload"` and then extracts it into the
destination (these are its only non-logging actions, in that order), but
it never deletes the temporary download — no event of the fetch loop is
a file deletion. -/
theorem c7_amended (env : Env) (bd : String) (src : PkgFileSource) :
    ((ends_with src.source ".tar.gz" || ends_with src.source ".tgz"
        || ends_with src.source ".tar.bz2" || ends_with src.source ".tar.xz") = true →
      (fetchSource env bd src).filter (fun e => !isLogErr e) =
        [FetchEvent.download src.source (sourceDest bd src ++ ".tmpdownload"),
         FetchEvent.extractTar (sourceDest bd src ++ ".tmpdownload")
           (sourceDest bd src)]) ∧
    (ends_with src.source ".zip" = true →
      (fetchSource env bd src).filter (fun e => !isLogErr e) =
        [FetchEvent.download src.source (sourceDest bd src ++ ".tmpdownload"),
         FetchEvent.extractZip (sourceDest bd src ++ ".tmpdownload")
           (sourceDest bd src)]) ∧
    (∀ e ∈ fetchSource env bd src, isDelete e = false) := by
  refine ⟨?_, ?_, fetchSource_noDelete env bd src⟩
  · intro htar
    rw [filter_fetchSource]
    unfold fetchSourceActions fetchGitActions fetchTarballActions fetchZipActions
    rw [fetchTarSuffix_not_git src.source htar, fetchTarSuffix_not_zip src.source htar]
    simp [htar]
  · intro hzip
    rw [filter_fetchSource]
    unfold fetchSourceActions fetchGitActions fetchTarballActions fetchZipActions
    rw [zipSuffix_not_git src.source hzip, zipSuffix_not_tar src.source hzip]
    simp [hzip]

/-- C7 amended witness: at the concrete tarball source the non-logging
actions are exactly download to `/b.tmpdownload` then extraction into
`/b`. -/
theorem c7_amended_witness :
    (ends_with csrcTarGz.source ".tar.gz" || ends_with csrcTarGz.source ".tgz"
      || ends_with csrcTarGz.source ".tar.bz2"
      || ends_with csrcTarGz.source ".tar.xz") = true ∧
    (fetchSource cenvOk "/b" csrcTarGz).filter (fun e => !isLogErr e) =
      [FetchEvent.download csrcTarGz.source (sourceDest "/b" csrcTarGz ++ ".tmpdownload"),
       FetchEvent.extractTar (sourceDest "/b" csrcTarGz ++ ".tmpdownload")
         (sourceDest "/b" csrcTarGz)] :=
  ⟨by decide, (c7_amended cenvOk "/b" csrcTarGz).1 (by decide)⟩

/-- C8: the fetch loop is best-effort per source.  Processing a source
list visits every source in list order no matter what fails (the events
of the list around `s` are exactly the events before, then `s`'s own,
then the rest); the real actions taken for a source (everything except
error logging) do not depend on any command's exit status — a failure
changes only the log; and a failed tar-family download is indeed
logged. -/
theorem c8_fetch_best_effort (env : Env) (bd : String)
    (l1 l2 : List PkgFileSource) (s : PkgFileSource) :
    fetchSources env bd (l1 ++ s :: l2) =
      fetchSources env bd l1 ++ (fetchSource env bd s ++ fetchSources env bd l2) ∧
    (fetchSource env bd s).filter (fun e => !isLogErr e) = fetchSourceActions bd s ∧
    ((ends_with s.source ".tar.gz" || ends_with s.source ".tgz"
        || ends_with s.source ".tar.bz2" || ends_with s.source ".tar.xz") = true →
      env.curlStatus s.source ≠ 0 →
      FetchEvent.logErr "Download failed" ∈ fetchSource env bd s) := by
  refine ⟨?_, filter_fetchSource env bd s, ?_⟩
  · rw [fetchSources_append]
    rfl
  · intro htar hcurl
    simp only [fetchSource]
    refine List.mem_append.mpr (Or.inl (List.mem_append.mpr (Or.inr ?_)))
    unfold fetchTarball
    rw [if_pos (by simpa using htar)]
    refine List.mem_append.mpr (Or.inl (List.mem_append.mpr (Or.inl
      (List.mem_append.mpr (Or.inr ?_)))))
    rw [if_neg hcurl]
    exact List.mem_singleton.mpr rfl

/-- C8 witness: with a failing `curl`, the concrete tarball source still
yields its events and the failure is logged. -/
theorem c8_fetch_best_effort_witness :
    (ends_with csrcTarGz.source ".tar.gz" || ends_with csrcTarGz.source ".tgz"
      || ends_with csrcTarGz.source ".tar.bz2"
      || ends_with csrcTarGz.source ".tar.xz") = true ∧
    cenvCurlFail.curlStatus csrcTarGz.source ≠ 0 ∧
    FetchEvent.logErr "Download failed" ∈ fetchSource cenvCurlFail "/b" csrcTarGz :=
  ⟨by decide, by decide,
    (c8_fetch_best_effort cenvCurlFail "/b" [] [] csrcTarGz).2.2
      (by decide) (by decide)⟩

/-- C9: in multi-package mode the tarball of the first subpackage is
written by `tar` directly to `output_path/<subpackage-name>.tar.gz`, and
the subsequent `fs::copy` targets
`output_path ++ "/" ++ <that full tarball path>` — a destination in
which `output_path` occurs twice (main.rs:164 and main.rs:187).  When
that doubled destination is not writable (its directory does not exist),
the copy fails, the invocation aborts with "Unable to copy tarball to
output directory", the already-created tarball is the only archive, and
nothing was ever recorded as successfully copied. -/
theorem c9_doubled_copy_dest (env : Env) (pkg : PkgFile)
    (bd od pd op : String) (built : List String)
    (sp : PkgFileSubPackage) (rest : List PkgFileSubPackage)
    (hsub : pkg.subpackage = some (sp :: rest))
    (hexit : env.buildExit = 0)
    (htar : env.tarOk (tarballName op sp) = true)
    (hcopy : env.copyOk (tarballCopyDest op (tarballName op sp)) = false) :
    (mainRun env pkg bd od pd op built).panicMsg =
      some "Unable to copy tarball to output directory" ∧
    (∃ es, (mainRun env pkg bd od pd op built).st.archives =
      [(tarballName op sp, es)]) ∧
    (mainRun env pkg bd od pd op built).st.copies = [] ∧
    tarballCopyDest op (tarballName op sp) =
      op ++ "/" ++ (op ++ "/" ++ sp.name ++ ".tar.gz") := by
  have key : ∀ st : St, st.archives = [] → st.copies = [] →
      (packagePhase env pkg bd od pd op st).panicMsg =
        some "Unable to copy tarball to output directory" ∧
      (∃ es, (packagePhase env pkg bd od pd op st).st.archives =
        [(tarballName op sp, es)]) ∧
      (packagePhase env pkg bd od pd op st).st.copies = [] := by
    intro st ha hc
    obtain ⟨hp1, ⟨es, he1⟩, hc1⟩ :=
      processSubpackage_copyFail env od pd op st sp htar hcopy
    have hpan : (processSubpackages env od pd op st (sp :: rest)).panicMsg =
        some "Unable to copy tarball to output directory" ∧
        (processSubpackages env od pd op st (sp :: rest)).st =
          (processSubpackage env od pd op st sp).st := by
      rw [processSubpackages_cons, hp1]
      exact ⟨rfl, rfl⟩
    rw [packagePhase_panicProp env pkg bd od pd op st (sp :: rest) _ hsub hpan.1]
    refine ⟨rfl, ⟨es, ?_⟩, ?_⟩
    · show (processSubpackages env od pd op st (sp :: rest)).st.archives = _
      rw [hpan.2, he1, ha]
      simp
    · show (processSubpackages env od pd op st (sp :: rest)).st.copies = _
      rw [hpan.2, hc1, hc]
  cases hb : pkg.build with
  | none =>
    rw [mainRun_noBuild env pkg bd od pd op built hb]
    exact ⟨(key (initSt built) rfl rfl).1, (key (initSt built) rfl rfl).2.1,
      (key (initSt built) rfl rfl).2.2, rfl⟩
  | some b =>
    rw [mainRun_buildOk env pkg bd od pd op built b hb hexit]
    exact ⟨(key _ rfl rfl).1, (key _ rfl rfl).2.1, (key _ rfl rfl).2.2, rfl⟩

/-- C9 witness: at the concrete two-subpackage descriptor with every
`fs::copy` failing, the invocation aborts after the first subpackage's
tarball with the doubled destination `/out//out/dev.tar.gz`. -/
theorem c9_doubled_copy_dest_witness :
    cenvCopyFail.tarOk (tarballName "/out" ⟨"dev", "d", ["/*"]⟩) = true ∧
    cenvCopyFail.copyOk
      (tarballCopyDest "/out" (tarballName "/out" ⟨"dev", "d", ["/*"]⟩)) = false ∧
    ((mainRun cenvCopyFail cpkgTwoSub "/b" "/o" "/p" "/out" ["/a.txt"]).panicMsg =
        some "Unable to copy tarball to output directory" ∧
      (∃ es, (mainRun cenvCopyFail cpkgTwoSub "/b" "/o" "/p" "/out"
          ["/a.txt"]).st.archives = [(tarballName "/out" ⟨"dev", "d", ["/*"]⟩, es)]) ∧
      (mainRun cenvCopyFail cpkgTwoSub "/b" "/o" "/p" "/out" ["/a.txt"]).st.copies
        = [] ∧
      tarballCopyDest "/out" (tarballName "/out" ⟨"dev", "d", ["/*"]⟩) =
        "/out" ++ "/" ++ ("/out" ++ "/" ++ "dev" ++ ".tar.gz")) :=
  ⟨rfl, rfl,
    c9_doubled_copy_dest cenvCopyFail cpkgTwoSub "/b" "/o" "/p" "/out" ["/a.txt"]
      ⟨"dev", "d", ["/*"]⟩ [⟨"doc", "d", ["/*"]⟩] rfl rfl rfl rfl⟩

/-- C10: whenever the descriptor has a build script, the one child
process spawned to run it is `bash` with arguments `-c` and the string
`"source /root/.bashrc\n\n"` followed by the script text — so
`/root/.bashrc` is sourced before the user's script — and the script is
never handed to `bash -c` verbatim on its own. -/
theorem c10_bash_invocation (env : Env) (pkg : PkgFile)
    (bd od pd op : String) (built : List String) (b : PkgFileBuild)
    (hb : pkg.build = some b) :
    (mainRun env pkg bd od pd op built).st.execs =
      [("bash", ["-c", "source /root/.bashrc\n\n" ++ b.script])] ∧
    ("bash", ["-c", b.script]) ∉ (mainRun env pkg bd od pd op built).st.execs := by
  have hexecs : (mainRun env pkg bd od pd op built).st.execs = [buildInvocation b] := by
    by_cases hexit : env.buildExit = 0
    · rw [mainRun_buildOk env pkg bd od pd op built b hb hexit]
      exact packagePhase_execs env pkg bd od pd op _
    · rw [mainRun_buildFail env pkg bd od pd op built b hb hexit]
  constructor
  · rw [hexecs]
    simp [buildInvocation]
  · rw [hexecs]
    intro hmem
    have heq := List.mem_singleton.mp hmem
    have hscript : b.script = "source /root/.bashrc\n\n" ++ b.script := by
      have harg := congrArg Prod.snd heq
      simp [buildInvocation] at harg
      exact harg
    have hlen := congrArg String.length hscript
    rw [String.length_append] at hlen
    have hpos : (0 : Nat) < ("source /root/.bashrc\n\n").length := by decide
    omega

/-- C10 witness: at the concrete descriptor with a build script, the one
spawned process is `bash -c` on the sourced-bashrc prefix followed by
the script. -/
theorem c10_bash_invocation_witness :
    cpkgBuild.build = some { script := "echo hi > $OUT/hi.txt" } ∧
    (mainRun cenvOk cpkgBuild "/b" "/o" "/p" "/out" []).st.execs =
      [("bash", ["-c", "source /root/.bashrc\n\n" ++ "echo hi > $OUT/hi.txt"])] :=
  ⟨rfl, (c10_bash_invocation cenvOk cpkgBuild "/b" "/o" "/p" "/out" []
      { script := "echo hi > $OUT/hi.txt" } rfl).1⟩

end PkgBuilder
